import Mathlib

/-!
Shallow embedding of the DHCPv6 client (`src/core/net/dhcp6_client.cpp`) and
proofs about its reconciler, retry state machine, TLV codec and reply parser.

Messages are byte lists (`List Nat`, each entry a byte value).  Offsets and
lengths follow the C source's `uint16_t` arithmetic: wrapping subtraction and
addition are modelled with explicit `% 65536`.  The identity-association pool
is a `List IdentityAssociation`; the network-interface address table is
modelled as an event log inside the client state, recording each
`AddUnicastAddress` / `RemoveUnicastAddress` call.
-/

namespace Dhcp6

/-! ### Byte-level helpers -/

/-- big-endian 16-bit value from two bytes -/
def be16 (a b : Nat) : Nat := a * 256 + b

/-- big-endian 24-bit value from three bytes (the 3-byte transaction id) -/
def be24 (a b c : Nat) : Nat := (a * 256 + b) * 256 + c

/-- big-endian 32-bit value from four bytes -/
def be32 (a b c d : Nat) : Nat := ((a * 256 + b) * 256 + c) * 256 + d

/-- wrapping 16-bit subtraction `(a - b) mod 2^16`, as produced by C `uint16_t`
arithmetic; callers pass `b < 131072` -/
def sub16 (a b : Nat) : Nat := (a + 131072 - b % 131072) % 65536

/-- leading equal-bit count of an 8-bit xor value, mirroring the shift loop in
`Ip6::Address::PrefixMatch` (`while ((diff & 0x80) == 0) { rval++; diff <<= 1; }`) -/
def leadBits : Nat → Nat → Nat
  | 0, _ => 0
  | fuel + 1, d => if d &&& 128 = 0 then 1 + leadBits fuel ((d <<< 1) % 256) else 0

/-- number of leading bits shared by two byte sequences, mirroring
`Ip6::Address::PrefixMatch`: 8 per equal byte, then the leading equal bits of
the first differing byte -/
def prefixMatch : List Nat → List Nat → Nat
  | x :: xs, y :: ys =>
      if (x % 256) ^^^ (y % 256) = 0 then 8 + prefixMatch xs ys
      else leadBits 8 ((x % 256) ^^^ (y % 256))
  | _, _ => 0

/-- read test for `Message::Read(offset, n, buf) == n` -/
def readOk (m : List Nat) (o n : Nat) : Bool := o + n ≤ m.length

/-- byte of the message at offset `i` (0 when out of range; reads are guarded
by `readOk` wherever the source checks the read count) -/
def byteAt (m : List Nat) (i : Nat) : Nat := m.getD i 0

/-- option code field of the TLV at offset `o` -/
def codeAt (m : List Nat) (o : Nat) : Nat := be16 (byteAt m o) (byteAt m (o + 1))

/-- option length field of the TLV at offset `o` -/
def lenAt (m : List Nat) (o : Nat) : Nat := be16 (byteAt m (o + 2)) (byteAt m (o + 3))

/-! ### Wire constants

Modelled from the spec: the message-type and option-code values, the DUID
type/hardware-type codes and the status code live in `net/dhcp6.hpp`, which is
not part of the sources here; the spec's wire-format section lists which codes
exist, and the concrete numbers are the standard DHCPv6 ones. -/

def kTypeSolicit : Nat := 1
def kTypeReply : Nat := 7
def kOptionClientIdentifier : Nat := 1
def kOptionServerIdentifier : Nat := 2
def kOptionIaNa : Nat := 3
def kOptionIaAddress : Nat := 5
def kOptionElapsedTime : Nat := 8
def kOptionStatusCode : Nat := 13
def kOptionRapidCommit : Nat := 14
def kDuidLinkLayerAddressPlusTime : Nat := 1
def kDuidLinkLayerAddress : Nat := 3
def kHardwareTypeEthernet : Nat := 1
def kHardwareTypeEui64 : Nat := 27
def kStatusSuccess : Nat := 0
def originDhcpv6 : Nat := 3

/-- header size, option header size, and the option-struct sizes used by the
client (`sizeof(Header)`, `sizeof(Option)`, `sizeof(IaNa)`, `sizeof(IaAddress)`,
`sizeof(ClientIdentifier)`/`sizeof(ServerIdentifier)`, `sizeof(StatusCode)`) -/
def szHeader : Nat := 4
def szOption : Nat := 4
def szIaNa : Nat := 16
def szIaAddress : Nat := 28
def szIdentifier : Nat := 16
def szStatusCode : Nat := 6

/-! ### Data model -/

/-- binding status (`IaStatus` in `dhcp6_client.hpp`); `invalid` is the
zero/free tag produced by the constructor's `memset` -/
inductive IaStatus where
  | invalid
  | solicit
  | soliciting
  | solicitReplied
deriving DecidableEq, Repr

/-- the `Ip6::NetifUnicastAddress` fields the client reads and writes -/
structure NetifAddress where
  mAddress : List Nat
  mPrefixLength : Nat
  mAddressOrigin : Nat
  mPreferred : Bool
  mValid : Bool
deriving DecidableEq, Repr

/-- one pool slot (`IdentityAssociation` in `dhcp6_client.hpp`) -/
structure IdentityAssociation where
  mNetifAddress : NetifAddress
  mPreferredLifetime : Nat
  mValidLifetime : Nat
  mPrefixAgentRloc : Nat
  mStatus : IaStatus
deriving DecidableEq, Repr

/-- one entry of the on-mesh prefix configuration
(`NetworkData::OnMeshPrefixConfig`, restricted to the fields the client reads) -/
structure PfxCfg where
  mPfx : List Nat
  mLength : Nat
  mRloc16 : Nat
  mDhcp : Bool
deriving DecidableEq, Repr

/-- a call made on the network-interface address table -/
inductive NetifEvent where
  | addAddr (a : NetifAddress)
  | removeAddr (a : NetifAddress)
deriving DecidableEq, Repr

/-- client state: socket, trickle timer (abstracted to its running flag),
solicit start time, transaction id, current-binding index, the binding pool,
and the log of interface-table calls -/
structure ClientState where
  socketOpen : Bool
  timerRunning : Bool
  mStartTime : Nat
  mTransactionId : Nat
  current : Option Nat
  pool : List IdentityAssociation
  netifLog : List NetifEvent
deriving DecidableEq, Repr

/-- the all-zero binding produced by `memset(mIdentityAssociations, 0, ...)` -/
def zeroIa : IdentityAssociation :=
  { mNetifAddress :=
      { mAddress := List.replicate 16 0, mPrefixLength := 0, mAddressOrigin := 0,
        mPreferred := false, mValid := false },
    mPreferredLifetime := 0, mValidLifetime := 0, mPrefixAgentRloc := 0,
    mStatus := .invalid }

/-- state after the constructor ran with a pool of `n` slots -/
def initState (n : Nat) : ClientState :=
  { socketOpen := false, timerRunning := false, mStartTime := 0,
    mTransactionId := 0, current := none, pool := List.replicate n zeroIa,
    netifLog := [] }

/-! ### First-index scan

The C `for` loops over the pool scan in order and stop at the first hit;
`firstIdx` is that scan. -/

def firstIdx (p : α → Bool) : List α → Option Nat
  | [] => none
  | a :: l => if p a then some 0 else (firstIdx p l).map (· + 1)

/-! ### Reconciler (`Client::UpdateAddresses` and helpers) -/

/-- `Client::MatchNetifAddressWithPrefix` -/
def matchNetifAddressWithPfx (na : NetifAddress) (c : PfxCfg) : Bool :=
  c.mLength == na.mPrefixLength && na.mPrefixLength ≤ prefixMatch na.mAddress c.mPfx

/-- condition under which the first loop of `UpdateAddresses` invalidates a
binding: not already invalid, confirmed (`mValidLifetime != 0`), and no
DHCP-eligible prefix of the current configuration matches its address -/
def shouldInvalidate (cfg : List PfxCfg) (ia : IdentityAssociation) : Bool :=
  !(ia.mStatus == .invalid) && !(ia.mValidLifetime == 0) &&
    !(cfg.any fun c => c.mDhcp && matchNetifAddressWithPfx ia.mNetifAddress c)

/-- the claimed slot contents when `UpdateAddresses` reuses a free slot for a
new DHCP-eligible prefix -/
def claimIa (c : PfxCfg) (ia : IdentityAssociation) : IdentityAssociation :=
  { ia with
    mNetifAddress := { ia.mNetifAddress with mAddress := c.mPfx, mPrefixLength := c.mLength },
    mStatus := .solicit, mValidLifetime := 0, mPrefixAgentRloc := c.mRloc16 }

/-- refresh of the agent locator on a binding that already matches a prefix -/
def setRloc (r : Nat) (ia : IdentityAssociation) : IdentityAssociation :=
  { ia with mPrefixAgentRloc := r }

/-- scan predicate of the second loop of `UpdateAddresses`: a live binding
whose address matches the prefix -/
def keyedB (c : PfxCfg) (ia : IdentityAssociation) : Bool :=
  !(ia.mStatus == .invalid) && matchNetifAddressWithPfx ia.mNetifAddress c

/-- one iteration of the second loop of `UpdateAddresses` for one DHCP-eligible
prefix: refresh the agent locator of the first matching live binding, else
claim the first free slot, else drop the prefix (resource exhaustion) -/
def processPfxCfg (pool : List IdentityAssociation) (c : PfxCfg) :
    List IdentityAssociation :=
  match firstIdx (keyedB c) pool with
  | some i => pool.set i (setRloc c.mRloc16 (pool.getD i zeroIa))
  | none =>
      match firstIdx (fun ia => ia.mStatus == IaStatus.invalid) pool with
      | some j => pool.set j (claimIa c (pool.getD j zeroIa))
      | none => pool

/-- the second loop of `UpdateAddresses` over all DHCP-eligible prefixes -/
def additions (cfg : List PfxCfg) (pool : List IdentityAssociation) :
    List IdentityAssociation :=
  (cfg.filter (·.mDhcp)).foldl processPfxCfg pool

/-- `Client::ProcessNextIdentityAssociation`; `tx` is the transaction id the
random generator returns -/
def processNextIdentityAssociation (tx : Nat) (s : ClientState) :
    ClientState × Bool :=
  let blocked :=
    match s.current with
    | some i => (s.pool.getD i zeroIa).mStatus == IaStatus.soliciting
    | none => false
  if blocked then (s, false)
  else
    let s1 := { s with timerRunning := false }
    match firstIdx (fun ia => ia.mStatus == IaStatus.solicit) s.pool with
    | some j =>
        ({ s1 with mTransactionId := tx, current := some j, timerRunning := true }, true)
    | none => (s1, false)

/-- `Client::Start` -/
def start (tx : Nat) (s : ClientState) : ClientState :=
  if s.socketOpen then s
  else (processNextIdentityAssociation tx { s with socketOpen := true }).1

/-- `Client::Stop` (closes the socket; it does not touch the trickle timer) -/
def stop (s : ClientState) : ClientState := { s with socketOpen := false }

/-- `Client::UpdateAddresses`; `tx` is the transaction id used if a new
solicitation starts -/
def updateAddresses (cfg : List PfxCfg) (tx : Nat) (s : ClientState) : ClientState :=
  let events := s.pool.filterMap fun ia =>
    if shouldInvalidate cfg ia then some (NetifEvent.removeAddr ia.mNetifAddress) else none
  let pool1 := s.pool.map fun ia =>
    if shouldInvalidate cfg ia then { ia with mStatus := .invalid } else ia
  let pool2 := additions cfg pool1
  let s2 := { s with pool := pool2, netifLog := s.netifLog ++ events }
  if cfg.any (·.mDhcp) then start tx s2 else stop s2

/-! ### Retry engine (`Client::HandleTrickleTimer`) -/

/-- `Client::HandleTrickleTimer`; `now` is the clock value recorded as the
solicit start time, `tx` the transaction id for a follow-up solicitation.
`Solicit` itself only builds and sends a message, so it leaves the client
state unchanged. -/
def handleTrickleTimer (now tx : Nat) (s : ClientState) : ClientState × Bool :=
  match s.current with
  | none => (s, false)
  | some i =>
      match (s.pool.getD i zeroIa).mStatus with
      | .solicit =>
          let pool1 := s.pool.set i { s.pool.getD i zeroIa with mStatus := .soliciting }
          ({ s with mStartTime := now, pool := pool1 }, true)
      | .soliciting => (s, true)
      | .solicitReplied =>
          let s1 := { s with current := none }
          let r := processNextIdentityAssociation tx s1
          if r.2 then (r.1, true)
          else ({ r.1 with timerRunning := false, socketOpen := false }, false)
      | .invalid => (s, true)

/-! ### TLV scan (`Client::FindOption`)

The loop keeps `uint16_t` offsets, so the bound `end` and the advancing
offset wrap modulo 2^16, and the loop condition is the inclusive
`aOffset <= end`.  The fuel 65537 exceeds the number of distinct `uint16_t`
offsets; running out of fuel means an offset repeated, in which case the C
loop never terminates. -/

def findOptionGo (m : List Nat) (code endO : Nat) : Nat → Nat → Nat
  | 0, _ => 0
  | fuel + 1, aOffset =>
      if endO < aOffset then 0
      else if !readOk m aOffset szOption then 0
      else if codeAt m aOffset = code then aOffset
      else findOptionGo m code endO fuel ((aOffset + szOption + lenAt m aOffset) % 65536)

/-- `Client::FindOption(aMessage, aOffset, aLength, aCode)`; 0 is the
not-found sentinel -/
def findOption (m : List Nat) (aOffset aLength code : Nat) : Nat :=
  findOptionGo m code ((aOffset + aLength) % 65536) 65537 aOffset

/-! ### Reply option validators -/

/-- `Client::ProcessStatusCode` succeeds -/
def statusCodeOk (m : List Nat) (o : Nat) : Bool :=
  readOk m o szStatusCode && szStatusCode - szOption ≤ lenAt m o &&
    be16 (byteAt m (o + 4)) (byteAt m (o + 5)) == kStatusSuccess

/-- DUID type field of an identifier option -/
def duidTypeAt (m : List Nat) (o : Nat) : Nat := be16 (byteAt m (o + 4)) (byteAt m (o + 5))

/-- DUID hardware-type field of an identifier option -/
def duidHwAt (m : List Nat) (o : Nat) : Nat := be16 (byteAt m (o + 6)) (byteAt m (o + 7))

/-- link-layer address (EUI-64) bytes of an identifier option -/
def duidLlAt (m : List Nat) (o : Nat) : List Nat := (m.drop (o + 8)).take 8

/-- `Client::ProcessServerIdentifier` succeeds -/
def serverIdOk (m : List Nat) (o : Nat) : Bool :=
  readOk m o szIdentifier &&
    ((duidTypeAt m o == kDuidLinkLayerAddressPlusTime && duidHwAt m o == kHardwareTypeEthernet) ||
     (lenAt m o == szIdentifier - szOption && duidTypeAt m o == kDuidLinkLayerAddress &&
      duidHwAt m o == kHardwareTypeEui64))

/-- `Client::ProcessClientIdentifier` succeeds; `eui` is the node's EUI-64 -/
def clientIdOk (eui : List Nat) (m : List Nat) (o : Nat) : Bool :=
  readOk m o szIdentifier && lenAt m o == szIdentifier - szOption &&
    duidTypeAt m o == kDuidLinkLayerAddress && duidHwAt m o == kHardwareTypeEui64 &&
    duidLlAt m o == eui

/-! ### IA parsing (`Client::ProcessIaAddress`, `Client::ProcessIaNa`) -/

/-- address bytes of an IA-Address option -/
def iaAddrAt (m : List Nat) (o : Nat) : List Nat := (m.drop (o + 4)).take 16

/-- preferred-lifetime field of an IA-Address option -/
def iaPltAt (m : List Nat) (o : Nat) : Nat :=
  be32 (byteAt m (o + 20)) (byteAt m (o + 21)) (byteAt m (o + 22)) (byteAt m (o + 23))

/-- valid-lifetime field of an IA-Address option -/
def iaVltAt (m : List Nat) (o : Nat) : Nat :=
  be32 (byteAt m (o + 24)) (byteAt m (o + 25)) (byteAt m (o + 26)) (byteAt m (o + 27))

/-- scan predicate of the pool loop in `ProcessIaAddress`: a live,
not-yet-confirmed binding whose address shares at least its prefix length
with the offered address -/
def iaMatchB (addr : List Nat) (ia : IdentityAssociation) : Bool :=
  !(ia.mStatus == .invalid) && ia.mValidLifetime == 0 &&
    ia.mNetifAddress.mPrefixLength ≤ prefixMatch ia.mNetifAddress.mAddress addr

/-- binding contents after a matching IA-Address option is applied -/
def applyIaAddr (m : List Nat) (o : Nat) (ia : IdentityAssociation) : IdentityAssociation :=
  { ia with
    mNetifAddress :=
      { ia.mNetifAddress with
        mAddress := iaAddrAt m o, mAddressOrigin := originDhcpv6,
        mPreferred := !(iaPltAt m o == 0), mValid := !(iaVltAt m o == 0) },
    mPreferredLifetime := iaPltAt m o, mValidLifetime := iaVltAt m o,
    mStatus := .solicitReplied }

/-- `Client::ProcessIaAddress`; the Bool is `error == OT_ERROR_NONE` -/
def processIaAddress (m : List Nat) (o : Nat) (s : ClientState) : Bool × ClientState :=
  if !readOk m o szIaAddress then (false, s)
  else if !(lenAt m o == szIaAddress - szOption) then (false, s)
  else
    match firstIdx (iaMatchB (iaAddrAt m o)) s.pool with
    | some j =>
        let ia' := applyIaAddr m o (s.pool.getD j zeroIa)
        (true, { s with pool := s.pool.set j ia',
                        netifLog := s.netifLog ++ [NetifEvent.addAddr ia'.mNetifAddress] })
    | none => (true, s)

/-- the `while (length > 0)` loop of `ProcessIaNa`; `length` stays a
`uint16_t`, updated with wrapping subtraction.  Fuel exhaustion corresponds
to an input on which the C loop never terminates. -/
def iaLoop (m : List Nat) : Nat → Nat → Nat → ClientState → Bool × ClientState
  | 0, _, _, s => (true, s)
  | fuel + 1, aOffset, length, s =>
      if length = 0 then (true, s)
      else
        let oo := findOption m aOffset length kOptionIaAddress
        if oo = 0 then (true, s)
        else
          match processIaAddress m oo s with
          | (false, s') => (false, s')
          | (true, s') =>
              iaLoop m fuel ((oo + szIaAddress) % 65536)
                (sub16 length (sub16 oo aOffset + szIaAddress)) s'

/-- nested-options window length computed by `ProcessIaNa`:
`option.GetLength() - (sizeof(IaNa) - sizeof(Option))` in `uint16_t`
arithmetic, i.e. wrapping subtraction of the fixed-field size 12 -/
def iaNaWindow (m : List Nat) (o : Nat) : Nat := sub16 (lenAt m o) (szIaNa - szOption)

/-- continuation of `ProcessIaNa` after the window check passed -/
def processIaNaBody (m : List Nat) (o1 w : Nat) (s : ClientState) : Bool × ClientState :=
  let so := findOption m o1 w kOptionStatusCode
  if so ≠ 0 && !statusCodeOk m so then (false, s)
  else iaLoop m (w + 1) o1 w s

/-- `Client::ProcessIaNa`; the Bool is `error == OT_ERROR_NONE` -/
def processIaNa (m : List Nat) (o : Nat) (s : ClientState) : Bool × ClientState :=
  if !readOk m o szIaNa then (false, s)
  else
    let o1 := o + szIaNa
    let w := iaNaWindow m o
    if !(w ≤ m.length - o1) then (false, s)
    else processIaNaBody m o1 w s

/-! ### Reply processing (`Client::ProcessReply`, `Client::HandleUdpReceive`) -/

/-- `Client::ProcessReply`.  The message offset is 4 (just past the header),
the scan window the rest of the message.  `now` and `tx` feed the
`HandleTrickleTimer` call made after a fully successful IA parse. -/
def processReply (eui : List Nat) (now tx : Nat) (m : List Nat) (s : ClientState) :
    ClientState :=
  let off := szHeader
  let len := m.length - szHeader
  let so := findOption m off len kOptionStatusCode
  if so ≠ 0 && !statusCodeOk m so then s
  else
    let vo := findOption m off len kOptionServerIdentifier
    if vo = 0 then s
    else if !serverIdOk m vo then s
    else
      let co := findOption m off len kOptionClientIdentifier
      if co = 0 then s
      else if !clientIdOk eui m co then s
      else if findOption m off len kOptionRapidCommit = 0 then s
      else
        let io := findOption m off len kOptionIaNa
        if io = 0 then s
        else
          match processIaNa m io s with
          | (true, s') => (handleTrickleTimer now tx s').1
          | (false, s') => s'

/-- `Client::HandleUdpReceive`: read the 4-byte header, then accept only a
Reply carrying the outstanding transaction id -/
def handleUdpReceive (eui : List Nat) (now tx : Nat) (m : List Nat) (s : ClientState) :
    ClientState :=
  if !readOk m 0 szHeader then s
  else if byteAt m 0 == kTypeReply &&
          be24 (byteAt m 1) (byteAt m 2) (byteAt m 3) == s.mTransactionId then
    processReply eui now tx m s
  else s

/-! ### Solicit builder (`Client::AppendIaNa`, `Client::AppendIaAddress`) -/

/-- big-endian 2-byte encoding -/
def enc16 (v : Nat) : List Nat := [v / 256 % 256, v % 256]

/-- big-endian 4-byte encoding -/
def enc32 (v : Nat) : List Nat :=
  [v / 16777216 % 256, v / 65536 % 256, v / 256 % 256, v % 256]

/-- predicate of the counting loop in `AppendIaNa`: not invalid, not replied,
owned by the queried agent -/
def countedB (r : Nat) (ia : IdentityAssociation) : Bool :=
  !(ia.mStatus == .invalid) && !(ia.mStatus == .solicitReplied) && ia.mPrefixAgentRloc == r

/-- the `uint8_t count` computed by `AppendIaNa` -/
def iaNaCount (s : ClientState) (r : Nat) : Nat := (s.pool.countP (countedB r)) % 256

/-- the length field written into the outbound IA_NA container:
`sizeof(IaNa) + sizeof(IaAddress) * count - sizeof(Option)` -/
def iaNaLengthField (s : ClientState) (r : Nat) : Nat :=
  (szIaNa + szIaAddress * iaNaCount s r - szOption) % 65536

/-- `Client::AppendIaNa`: the 16 bytes appended for the container, or `none`
for the `OT_ERROR_DROP` exit when no binding is being negotiated -/
def appendIaNa (s : ClientState) (r : Nat) : Option (List Nat) :=
  if s.current = none then none
  else some (enc16 kOptionIaNa ++ enc16 (iaNaLengthField s r) ++ enc32 0 ++ enc32 0 ++ enc32 0)

/-- predicate of the appending loop in `AppendIaAddress` -/
def appendedB (r : Nat) (ia : IdentityAssociation) : Bool :=
  (ia.mStatus == IaStatus.solicit || ia.mStatus == IaStatus.soliciting) &&
    ia.mPrefixAgentRloc == r

/-- one encoded IA-Address option of the outbound Solicit: the binding's
address with preferred and valid lifetime 0 -/
def encIaAddress (addr : List Nat) : List Nat :=
  enc16 kOptionIaAddress ++ enc16 (szIaAddress - szOption) ++ addr ++ enc32 0 ++ enc32 0

/-- `Client::AppendIaAddress`: the list of IA-Address options appended after
the container, or `none` for the `OT_ERROR_DROP` exit -/
def appendIaAddress (s : ClientState) (r : Nat) : Option (List (List Nat)) :=
  if s.current = none then none
  else some ((s.pool.filter (appendedB r)).map fun ia => encIaAddress ia.mNetifAddress.mAddress)

/-! ### Event system -/

/-- one externally triggered entry point of the client: a configuration
change (reconcile), a trickle-timer firing, or an inbound datagram.  The
numeric arguments are the environment's inputs: the random transaction id,
the clock, and the datagram bytes. -/
inductive Step (eui : List Nat) : ClientState → ClientState → Prop where
  | reconcile (cfg : List PfxCfg) (tx : Nat) (s : ClientState) :
      Step eui s (updateAddresses cfg tx s)
  | timer (now tx : Nat) (s : ClientState) :
      Step eui s (handleTrickleTimer now tx s).1
  | receive (now tx : Nat) (m : List Nat) (s : ClientState) :
      Step eui s (handleUdpReceive eui now tx m s)

/-- states reachable from a freshly constructed client by any sequence of
entry-point invocations -/
inductive Reachable (eui : List Nat) : ClientState → Prop where
  | init (n : Nat) : Reachable eui (initState n)
  | step {s s' : ClientState} : Reachable eui s → Step eui s s' → Reachable eui s'

/-! ### Concrete example data

One fixed EUI-64, one on-mesh /64 prefix, and concrete Reply messages used by
the concrete theorems below. -/

/-- the node's EUI-64 as returned by the radio -/
def exEui : List Nat := [1, 2, 3, 4, 5, 6, 7, 8]

/-- a 16-byte on-mesh prefix 2001:db8::/64 -/
def exPfx : List Nat := [32, 1, 13, 184] ++ List.replicate 12 0

/-- the address offered by the agent inside `exMsg`: inside `exPfx`/64 -/
def exAddrReply : List Nat := [32, 1, 13, 184] ++ List.replicate 11 0 ++ [1]

/-- configuration carrying the single DHCP-eligible prefix, owned by agent
0x0005 -/
def exCfg : List PfxCfg := [{ mPfx := exPfx, mLength := 64, mRloc16 := 5, mDhcp := true }]

/-- a fully well-formed Reply for transaction id 9: ServerIdentifier (EUI-64
DUID form), ClientIdentifier matching `exEui`, RapidCommit, and an IA_NA
containing one IA-Address with preferred lifetime 50 and valid lifetime 100 -/
def exMsg : List Nat :=
  [7, 0, 0, 9] ++
  [0, 2, 0, 12, 0, 3, 0, 27, 1, 1, 1, 1, 1, 1, 1, 1] ++
  [0, 1, 0, 12, 0, 3, 0, 27, 1, 2, 3, 4, 5, 6, 7, 8] ++
  [0, 14, 0, 0] ++
  [0, 3, 0, 40, 0, 0, 0, 0, 0, 0, 0, 0, 0, 0, 0, 0] ++
  ([0, 5, 0, 24] ++ exAddrReply ++ [0, 0, 0, 50] ++ [0, 0, 0, 100])

/-- trace state: after reconciling a fresh one-slot client with `exCfg` -/
def exS1 : ClientState := updateAddresses exCfg 9 (initState 1)

/-- trace state: after the first trickle-timer fire -/
def exS2 : ClientState := (handleTrickleTimer 0 9 exS1).1

/-- trace state: after receiving the Reply `exMsg` -/
def exS3 : ClientState := handleUdpReceive exEui 0 9 exMsg exS2

/-- trace state: after reconciling with an empty configuration (prefix
withdrawn) -/
def exS4 : ClientState := updateAddresses [] 9 exS3

/-- a binding for the shorter covering prefix 2001:db8::/48, still pending -/
def exIa48 : IdentityAssociation :=
  { zeroIa with
    mNetifAddress := { zeroIa.mNetifAddress with mAddress := exPfx, mPrefixLength := 48 },
    mStatus := .solicit, mPrefixAgentRloc := 6 }

/-- the address of the 2001:db8:0:1::/64 prefix -/
def exPfxB : List Nat := [32, 1, 13, 184, 0, 0, 0, 1] ++ List.replicate 8 0

/-- a binding for 2001:db8:0:1::/64, currently soliciting -/
def exIa64 : IdentityAssociation :=
  { zeroIa with
    mNetifAddress := { zeroIa.mNetifAddress with mAddress := exPfxB, mPrefixLength := 64 },
    mStatus := .soliciting, mPrefixAgentRloc := 5 }

/-- client state with the /48 binding before the soliciting /64 binding in
pool order -/
def exCxS : ClientState :=
  { socketOpen := true, timerRunning := true, mStartTime := 0, mTransactionId := 9,
    current := some 1, pool := [exIa48, exIa64], netifLog := [] }

/-- address offered for the soliciting /64 binding; it also shares 48 bits
with the /48 binding's prefix -/
def exAddrReplyB : List Nat := [32, 1, 13, 184, 0, 0, 0, 1] ++ List.replicate 7 0 ++ [1]

/-- a fully well-formed Reply whose IA-Address lies in 2001:db8:0:1::/64 -/
def exMsgB : List Nat :=
  [7, 0, 0, 9] ++
  [0, 2, 0, 12, 0, 3, 0, 27, 1, 1, 1, 1, 1, 1, 1, 1] ++
  [0, 1, 0, 12, 0, 3, 0, 27, 1, 2, 3, 4, 5, 6, 7, 8] ++
  [0, 14, 0, 0] ++
  [0, 3, 0, 40, 0, 0, 0, 0, 0, 0, 0, 0, 0, 0, 0, 0] ++
  ([0, 5, 0, 24] ++ exAddrReplyB ++ [0, 0, 0, 50] ++ [0, 0, 0, 100])

/-! ### Invariant predicates -/

def PoolInv (cur : Option Nat) (pool : List IdentityAssociation) : Prop :=
  (∀ i, i < pool.length → (pool.getD i zeroIa).mStatus = IaStatus.soliciting →
    cur = some i) ∧
  (∀ i, i < pool.length →
    ((pool.getD i zeroIa).mStatus = IaStatus.solicit ∨
     (pool.getD i zeroIa).mStatus = IaStatus.soliciting) →
    (pool.getD i zeroIa).mValidLifetime = 0)

/-- the client invariant: `PoolInv` over the current-binding index and pool -/
def ClientInv (s : ClientState) : Prop := PoolInv s.current s.pool

/-- at most one binding in the pool is Soliciting -/
def atMostOneSoliciting (s : ClientState) : Prop :=
  ∀ i j, i < s.pool.length → j < s.pool.length →
    (s.pool.getD i zeroIa).mStatus = IaStatus.soliciting →
    (s.pool.getD j zeroIa).mStatus = IaStatus.soliciting → i = j

/-- every Solicit or Soliciting binding is still unconfirmed -/
def solicitUnconfirmed (s : ClientState) : Prop :=
  ∀ i, i < s.pool.length →
    ((s.pool.getD i zeroIa).mStatus = IaStatus.solicit ∨
     (s.pool.getD i zeroIa).mStatus = IaStatus.soliciting) →
    (s.pool.getD i zeroIa).mValidLifetime = 0

/-! ### List helper lemmas -/

theorem getD_set_self {l : List α} {i : Nat} (h : i < l.length) (a d : α) :
    (l.set i a).getD i d = a := by
  induction l generalizing i with
  | nil => simp at h
  | cons x xs ih =>
      cases i with
      | zero => rfl
      | succ n => simpa using ih (by simpa using h) 

theorem getD_set_ne {l : List α} {i j : Nat} (h : i ≠ j) (a d : α) :
    (l.set i a).getD j d = l.getD j d := by
  induction l generalizing i j with
  | nil => rfl
  | cons x xs ih =>
      cases i with
      | zero => cases j with
        | zero => exact absurd rfl h
        | succ n => rfl
      | succ n => cases j with
        | zero => rfl
        | succ k => simpa using @ih n k (by omega)

theorem getD_mem {l : List α} {i : Nat} (h : i < l.length) (d : α) :
    l.getD i d ∈ l := by
  induction l generalizing i with
  | nil => simp at h
  | cons x xs ih =>
      cases i with
      | zero => simp
      | succ n => exact List.mem_cons_of_mem _ (ih (by simpa using h))

theorem map_self_of_fixed {l : List α} {f : α → α} (h : ∀ x ∈ l, f x = x) :
    l.map f = l := by
  induction l with
  | nil => rfl
  | cons x xs ih => simp [h x (by simp), ih fun y hy => h y (List.mem_cons_of_mem _ hy)]

theorem set_self_of_getD {l : List α} {i : Nat} {d : α} (hi : i < l.length)
    (a : α) (h : a = l.getD i d) : l.set i a = l := by
  induction l generalizing i with
  | nil => rfl
  | cons x xs ih =>
      cases i with
      | zero => simp [h]
      | succ n => simp [ih (by simpa using hi) (by simpa using h)]

/-! ### `firstIdx` characterization -/

theorem firstIdx_some {p : α → Bool} {l : List α} {i : Nat}
    (h : firstIdx p l = some i) (d : α) :
    i < l.length ∧ p (l.getD i d) = true ∧ ∀ j, j < i → p (l.getD j d) = false := by
  induction l generalizing i with
  | nil => simp [firstIdx] at h
  | cons x xs ih =>
      by_cases hx : p x
      · simp [firstIdx, hx] at h
        subst h
        exact ⟨by simp, by simpa using hx, fun j hj => by omega⟩
      · simp [firstIdx, hx] at h
        obtain ⟨k, hk, rfl⟩ := h
        obtain ⟨h1, h2, h3⟩ := ih hk
        refine ⟨by simpa using h1, by simpa using h2, ?_⟩
        intro j hj
        cases j with
        | zero => simpa using hx
        | succ n => simpa using h3 n (by omega)

theorem firstIdx_none {p : α → Bool} {l : List α}
    (h : firstIdx p l = none) (d : α) :
    ∀ j, j < l.length → p (l.getD j d) = false := by
  induction l with
  | nil => intro j hj; simp at hj
  | cons x xs ih =>
      by_cases hx : p x
      · simp [firstIdx, hx] at h
      · simp [firstIdx, hx] at h
        intro j hj
        cases j with
        | zero => simpa using hx
        | succ n => exact ih h n (by simpa using hj)

theorem firstIdx_eq_some {p : α → Bool} {l : List α} {i : Nat} (d : α)
    (hi : i < l.length) (hp : p (l.getD i d) = true)
    (hmin : ∀ j, j < i → p (l.getD j d) = false) :
    firstIdx p l = some i := by
  induction l generalizing i with
  | nil => simp at hi
  | cons x xs ih =>
      cases i with
      | zero => simp_all [firstIdx]
      | succ n =>
          have hx : p x = false := by simpa using hmin 0 (by omega)
          have : firstIdx p xs = some n :=
            ih (by simpa using hi) (by simpa using hp)
              (fun j hj => by simpa using hmin (j + 1) (by omega))
          simp [firstIdx, hx, this]

theorem firstIdx_eq_none {p : α → Bool} {l : List α} (d : α)
    (h : ∀ j, j < l.length → p (l.getD j d) = false) :
    firstIdx p l = none := by
  induction l with
  | nil => rfl
  | cons x xs ih =>
      have hx : p x = false := by simpa using h 0 (by simp)
      simp [firstIdx, hx, ih fun j hj => by simpa using h (j + 1) (by simpa using hj)]

/-! ### `FindOption` contract -/

theorem findOptionGo_cases (m : List Nat) (code endO : Nat) :
    ∀ (fuel ao : Nat),
      findOptionGo m code endO fuel ao = 0 ∨
      (readOk m (findOptionGo m code endO fuel ao) szOption = true ∧
       codeAt m (findOptionGo m code endO fuel ao) = code ∧
       findOptionGo m code endO fuel ao ≤ endO) := by
  intro fuel
  induction fuel with
  | zero => intro ao; exact Or.inl rfl
  | succ n ih =>
      intro ao
      have he : findOptionGo m code endO (n + 1) ao =
          if endO < ao then 0
          else if !readOk m ao szOption then 0
          else if codeAt m ao = code then ao
          else findOptionGo m code endO n ((ao + szOption + lenAt m ao) % 65536) := rfl
      rw [he]
      by_cases h1 : endO < ao
      · rw [if_pos h1]; exact Or.inl rfl
      rw [if_neg h1]
      by_cases h2 : (!readOk m ao szOption) = true
      · rw [if_pos h2]; exact Or.inl rfl
      rw [if_neg h2]
      by_cases h3 : codeAt m ao = code
      · rw [if_pos h3]; exact Or.inr ⟨by simpa using h2, h3, by omega⟩
      · rw [if_neg h3]; exact ih _

theorem findOption_cases (m : List Nat) (aOffset aLength code : Nat) :
    findOption m aOffset aLength code = 0 ∨
    (readOk m (findOption m aOffset aLength code) szOption = true ∧
     codeAt m (findOption m aOffset aLength code) = code ∧
     findOption m aOffset aLength code ≤ (aOffset + aLength) % 65536) :=
  findOptionGo_cases m code ((aOffset + aLength) % 65536) 65537 aOffset

theorem findOption_le_end {m : List Nat} {aOffset aLength code : Nat}
    (h : findOption m aOffset aLength code ≠ 0) :
    findOption m aOffset aLength code ≤ 65535 := by
  rcases findOption_cases m aOffset aLength code with h0 | ⟨_, _, hle⟩
  · exact absurd h0 h
  · have := Nat.mod_lt (aOffset + aLength) (show 0 < 65536 by omega)
    omega

/-- C6 (amended): `FindOption` scans linearly from the offset and returns the
not-found sentinel 0 or the offset of an option whose code matches; the scan
window is inclusive at its upper end, so the returned offset is at most
`(offset + windowLength) mod 2^16` and can equal it, but never exceeds it. -/
theorem findOption_window_contract (m : List Nat) (aOffset aLength code : Nat) :
    findOption m aOffset aLength code = 0 ∨
    (readOk m (findOption m aOffset aLength code) szOption = true ∧
     codeAt m (findOption m aOffset aLength code) = code ∧
     findOption m aOffset aLength code ≤ (aOffset + aLength) % 65536) :=
  findOption_cases m aOffset aLength code

/-- C6 counterexample: with window `[4, 4 + 0)` — an empty window — the scan
still reads the option that starts exactly at `offset + windowLength = 4` and
returns its offset, because the loop bound `aOffset <= end` is inclusive;
the claim's strict-window reading (`returned < offset + windowLength` or
sentinel) is false here. -/
theorem findOption_at_window_end_cx :
    findOption [0, 0, 0, 0, 0, 5, 0, 0] 4 0 5 = 4 ∧
    codeAt [0, 0, 0, 0, 0, 5, 0, 0] 4 = 5 ∧
    ¬(findOption [0, 0, 0, 0, 0, 5, 0, 0] 4 0 5 = 0 ∨
      findOption [0, 0, 0, 0, 0, 5, 0, 0] 4 0 5 < 4 + 0) := by
  decide

/-! ### C10: wrapping window subtraction in `ProcessIaNa` -/

/-- C10: when the declared IA_NA length is smaller than the fixed-field size
12, the nested-options window is computed by wrapping 16-bit subtraction, so
it becomes `declaredLength + 2^16 - 12` — a value of at least 65524 — rather
than a parse failure; the reply is then rejected at this point exactly when
that wrapped window exceeds the remaining bytes of the message, and otherwise
parsing proceeds with the wrapped window. -/
theorem processIaNa_wrapped_window (m : List Nat) (o : Nat) (s : ClientState)
    (hr : readOk m o szIaNa = true) (hd : lenAt m o < szIaNa - szOption) :
    iaNaWindow m o = lenAt m o + 65536 - 12 ∧
    65524 ≤ iaNaWindow m o ∧
    (m.length - (o + szIaNa) < iaNaWindow m o → processIaNa m o s = (false, s)) ∧
    (iaNaWindow m o ≤ m.length - (o + szIaNa) →
      processIaNa m o s = processIaNaBody m (o + szIaNa) (iaNaWindow m o) s) := by
  have hwin : iaNaWindow m o = lenAt m o + 65536 - 12 := by
    simp only [iaNaWindow, sub16, szIaNa, szOption] at *
    omega
  refine ⟨hwin, by omega, ?_, ?_⟩
  · intro hlt
    have hno : ¬(iaNaWindow m o ≤ m.length - (o + szIaNa)) := by omega
    simp [processIaNa, hr, hno]
  · intro hle
    simp [processIaNa, hr, hle]

/-- C10 witness: a 16-byte message that is exactly an IA_NA option with
declared length 0; the window wraps to 65524 and the reply is rejected. -/
theorem processIaNa_wrapped_window_witness :
    iaNaWindow [0, 3, 0, 0, 0, 0, 0, 0, 0, 0, 0, 0, 0, 0, 0, 0] 0 = 65524 ∧
    processIaNa [0, 3, 0, 0, 0, 0, 0, 0, 0, 0, 0, 0, 0, 0, 0, 0] 0 (initState 1) =
      (false, initState 1) := by
  have h := processIaNa_wrapped_window [0, 3, 0, 0, 0, 0, 0, 0, 0, 0, 0, 0, 0, 0, 0, 0] 0
    (initState 1) (by decide) (by decide)
  exact ⟨by decide, h.2.2.1 (by decide)⟩

/-! ### C8: outbound IA container length -/

theorem countedB_eq_appendedB (r : Nat) (ia : IdentityAssociation) :
    countedB r ia = appendedB r ia := by
  cases h : ia.mStatus <;> simp [countedB, appendedB, h]

/-- C8: for every pool state and server locator `r`, with the pool within the
fixed capacity (below 256, the range of the `uint8_t` counter), the length
field written into the outbound IA_NA container is the container's fixed-field
size (struct size 16 minus option-header size 4) plus `k` times the size 28 of
one IA-Address option, where `k` counts the bindings that are neither Invalid
nor Replied and share the server locator `r`; and exactly `k` IA-Address
options are appended after the container, one per such binding, each carrying
preferred and valid lifetime 0. -/
theorem appendIaNa_length_contract (s : ClientState) (r : Nat)
    (hc : s.current ≠ none) (hn : s.pool.length < 256) :
    iaNaLengthField s r =
      (szIaNa - szOption) + szIaAddress * (s.pool.filter (countedB r)).length ∧
    appendIaNa s r = some (enc16 kOptionIaNa ++ enc16 (iaNaLengthField s r) ++
      enc32 0 ++ enc32 0 ++ enc32 0) ∧
    ∃ opts, appendIaAddress s r = some opts ∧
      opts.length = (s.pool.filter (countedB r)).length ∧
      ∀ o ∈ opts, ∃ a, o = enc16 kOptionIaAddress ++ enc16 (szIaAddress - szOption) ++
        a ++ enc32 0 ++ enc32 0 := by
  have hk : s.pool.countP (countedB r) = (s.pool.filter (countedB r)).length :=
    (List.countP_eq_length_filter _ _)
  have hkle : (s.pool.filter (countedB r)).length < 256 :=
    lt_of_le_of_lt (List.length_filter_le _ _) hn
  have hcount : iaNaCount s r = (s.pool.filter (countedB r)).length := by
    simp [iaNaCount, hk, Nat.mod_eq_of_lt hkle]
  refine ⟨?_, ?_, ?_⟩
  · simp only [iaNaLengthField, hcount, szIaNa, szIaAddress, szOption]
    omega
  · simp [appendIaNa, hc]
  · refine ⟨(s.pool.filter (appendedB r)).map (fun ia => encIaAddress ia.mNetifAddress.mAddress),
      by simp [appendIaAddress, hc], ?_, ?_⟩
    · simp only [List.length_map]
      congr 1
      apply List.filter_congr
      intro x _
      exact (countedB_eq_appendedB r x).symm
    · intro o ho
      simp only [List.mem_map] at ho
      obtain ⟨ia, _, rfl⟩ := ho
      exact ⟨ia.mNetifAddress.mAddress, rfl⟩

/-- C8 witness: a two-slot pool with one pending binding owned by agent 1 and
one replied binding; the container length is 12 + 28 and one address option is
appended. -/
theorem appendIaNa_length_contract_witness :
    iaNaLengthField
      { socketOpen := true, timerRunning := true, mStartTime := 0, mTransactionId := 0,
        current := some 0,
        pool := [{ zeroIa with mStatus := .solicit, mPrefixAgentRloc := 1 },
                 { zeroIa with mStatus := .solicitReplied, mPrefixAgentRloc := 1 }],
        netifLog := [] } 1 = 40 := by
  have h := appendIaNa_length_contract
    { socketOpen := true, timerRunning := true, mStartTime := 0, mTransactionId := 0,
      current := some 0,
      pool := [{ zeroIa with mStatus := .solicit, mPrefixAgentRloc := 1 },
               { zeroIa with mStatus := .solicitReplied, mPrefixAgentRloc := 1 }],
      netifLog := [] } 1 (by decide) (by decide)
  rw [h.1]
  decide

/-! ### C3: withdrawal of a binding whose prefix disappeared -/

/-- C3 (amended): reconciling with a configuration that carries no
DHCP-eligible prefix invalidates a sole non-Invalid binding and calls the
interface-table remove for it only when the binding is confirmed
(`mValidLifetime ≠ 0`); the socket is closed, but the retry timer is not
stopped by this path, and the rest of the state is untouched.  (A binding
still Soliciting has `mValidLifetime = 0` and is skipped by the withdrawal
loop — see the counterexample.) -/
theorem updateAddresses_withdrawal (cfg : List PfxCfg) (tx : Nat) (s : ClientState)
    (p1 p2 : List IdentityAssociation) (ia : IdentityAssociation)
    (hpool : s.pool = p1 ++ ia :: p2)
    (h1 : ∀ x ∈ p1, x.mStatus = IaStatus.invalid)
    (h2 : ∀ x ∈ p2, x.mStatus = IaStatus.invalid)
    (hlive : ia.mStatus ≠ IaStatus.invalid)
    (hvl : ia.mValidLifetime ≠ 0)
    (hcfg : ∀ c ∈ cfg, c.mDhcp = false) :
    updateAddresses cfg tx s =
      { s with pool := p1 ++ { ia with mStatus := IaStatus.invalid } :: p2,
               netifLog := s.netifLog ++ [NetifEvent.removeAddr ia.mNetifAddress],
               socketOpen := false } := by
  have hfil : cfg.filter (·.mDhcp) = [] := by
    rw [List.filter_eq_nil]
    intro c hcm
    simp [hcfg c hcm]
  have hany : cfg.any (·.mDhcp) = false := by
    rw [List.any_eq_false]
    intro c hcm
    simp [hcfg c hcm]
  have hanym : ∀ x : IdentityAssociation,
      (cfg.any fun c => c.mDhcp && matchNetifAddressWithPfx x.mNetifAddress c) = false := by
    intro x
    rw [List.any_eq_false]
    intro c hcm
    simp [hcfg c hcm]
  have hsiIa : shouldInvalidate cfg ia = true := by
    simp [shouldInvalidate, hlive, hvl, hanym ia]
  have hsiInv : ∀ x : IdentityAssociation, x.mStatus = IaStatus.invalid →
      shouldInvalidate cfg x = false := by
    intro x hx
    simp [shouldInvalidate, hx]
  simp only [updateAddresses, hany, Bool.false_eq_true, if_false, additions, hfil,
    List.foldl_nil, hpool, stop]
  have hev : (p1 ++ ia :: p2).filterMap (fun x =>
      if shouldInvalidate cfg x then some (NetifEvent.removeAddr x.mNetifAddress) else none) =
      [NetifEvent.removeAddr ia.mNetifAddress] := by
    rw [List.filterMap_append, List.filterMap_cons]
    rw [List.filterMap_eq_nil.mpr fun x hx => by simp [hsiInv x (h1 x hx)]]
    rw [List.filterMap_eq_nil.mpr fun x hx => by simp [hsiInv x (h2 x hx)]]
    simp [hsiIa]
  have hmap : (p1 ++ ia :: p2).map (fun x =>
      if shouldInvalidate cfg x then { x with mStatus := IaStatus.invalid } else x) =
      p1 ++ { ia with mStatus := IaStatus.invalid } :: p2 := by
    rw [List.map_append, List.map_cons]
    rw [map_self_of_fixed fun x hx => by simp [hsiInv x (h1 x hx)]]
    rw [map_self_of_fixed fun x hx => by simp [hsiInv x (h2 x hx)]]
    simp [hsiIa]
  rw [hev, hmap]

/-- C3 counterexample: a sole Soliciting binding (necessarily with
`mValidLifetime = 0`) whose prefix has been withdrawn is NOT invalidated by
reconcile — the withdrawal loop skips bindings with `mValidLifetime == 0` —
no interface-table remove happens, and the trickle timer keeps running; only
the socket is closed. -/
theorem updateAddresses_withdrawal_cx :
    (updateAddresses [] 0
      { socketOpen := true, timerRunning := true, mStartTime := 0, mTransactionId := 9,
        current := some 0,
        pool := [{ zeroIa with mStatus := .soliciting, mPrefixAgentRloc := 5 }],
        netifLog := [] }).pool =
      [{ zeroIa with mStatus := .soliciting, mPrefixAgentRloc := 5 }] ∧
    (updateAddresses [] 0
      { socketOpen := true, timerRunning := true, mStartTime := 0, mTransactionId := 9,
        current := some 0,
        pool := [{ zeroIa with mStatus := .soliciting, mPrefixAgentRloc := 5 }],
        netifLog := [] }).netifLog = [] ∧
    (updateAddresses [] 0
      { socketOpen := true, timerRunning := true, mStartTime := 0, mTransactionId := 9,
        current := some 0,
        pool := [{ zeroIa with mStatus := .soliciting, mPrefixAgentRloc := 5 }],
        netifLog := [] }).timerRunning = true := by
  decide

/-- C3 witness: a confirmed binding with lifetime 100 under an empty
configuration is invalidated, its address removed, and the socket closed. -/
theorem updateAddresses_withdrawal_witness :
    updateAddresses [] 0
      { socketOpen := true, timerRunning := true, mStartTime := 0, mTransactionId := 9,
        current := some 0,
        pool := [{ zeroIa with mStatus := .solicitReplied, mValidLifetime := 100 }],
        netifLog := [] } =
      { socketOpen := false, timerRunning := true, mStartTime := 0, mTransactionId := 9,
        current := some 0,
        pool := [{ zeroIa with mStatus := .invalid, mValidLifetime := 100 }],
        netifLog := [NetifEvent.removeAddr zeroIa.mNetifAddress] } := by
  have h := updateAddresses_withdrawal [] 0
    { socketOpen := true, timerRunning := true, mStartTime := 0, mTransactionId := 9,
      current := some 0,
      pool := [{ zeroIa with mStatus := .solicitReplied, mValidLifetime := 100 }],
      netifLog := [] } [] []
    { zeroIa with mStatus := .solicitReplied, mValidLifetime := 100 }
    rfl (by simp) (by simp) (by decide) (by decide) (by simp)
  rw [h]
  decide

/-! ### C7: rejected datagrams leave the state unchanged -/

theorem byteAt_lt {m : List Nat} (hw : ∀ b ∈ m, b < 256) (i : Nat) : byteAt m i < 256 := by
  by_cases h : i < m.length
  · exact hw _ (getD_mem h 0)
  · simp only [byteAt]
    rw [List.getD_eq_default _ _ (by omega)]
    omega

theorem be16_eq_small {a b v : Nat} (ha : a < 256) (hv : v < 256)
    (h : be16 a b = v) : a = 0 ∧ b = v := by
  simp only [be16] at h
  omega

/-- rejection inside `ProcessReply` when the located StatusCode option fails
the success check -/
theorem processReply_statusCode_reject (eui : List Nat) (now tx : Nat) (m : List Nat)
    (s : ClientState)
    (hso : findOption m szHeader (m.length - szHeader) kOptionStatusCode ≠ 0)
    (hfail : statusCodeOk m (findOption m szHeader (m.length - szHeader) kOptionStatusCode)
      = false) :
    processReply eui now tx m s = s := by
  simp [processReply, hso, hfail]

/-- rejection inside `ProcessReply` when the located ClientIdentifier option
has any DUID byte differing from the node's own DUID -/
theorem processReply_clientId_reject (eui : List Nat) (now tx : Nat) (m : List Nat)
    (s : ClientState)
    (hw : ∀ b ∈ m, b < 256)
    (hco : findOption m szHeader (m.length - szHeader) kOptionClientIdentifier ≠ 0)
    (hduid :
      ¬(byteAt m (findOption m szHeader (m.length - szHeader) kOptionClientIdentifier + 4) = 0 ∧
        byteAt m (findOption m szHeader (m.length - szHeader) kOptionClientIdentifier + 5) =
          kDuidLinkLayerAddress ∧
        byteAt m (findOption m szHeader (m.length - szHeader) kOptionClientIdentifier + 6) = 0 ∧
        byteAt m (findOption m szHeader (m.length - szHeader) kOptionClientIdentifier + 7) =
          kHardwareTypeEui64 ∧
        duidLlAt m (findOption m szHeader (m.length - szHeader) kOptionClientIdentifier)
          = eui)) :
    processReply eui now tx m s = s := by
  set co := findOption m szHeader (m.length - szHeader) kOptionClientIdentifier with hcodef
  have hcid : clientIdOk eui m co = false := by
    by_contra hne
    have hcid : clientIdOk eui m co = true := by
      cases hx : clientIdOk eui m co
      · exact absurd hx hne
      · rfl
    simp only [clientIdOk, Bool.and_eq_true, beq_iff_eq, decide_eq_true_eq] at hcid
    obtain ⟨⟨⟨⟨_, _⟩, hty⟩, hhw⟩, hll⟩ := hcid
    have h1 := be16_eq_small (byteAt_lt hw (co + 4)) (by norm_num [kDuidLinkLayerAddress]) hty
    have h2 := be16_eq_small (byteAt_lt hw (co + 6)) (by norm_num [kHardwareTypeEui64]) hhw
    exact hduid ⟨h1.1, h1.2, h2.1, h2.2, hll⟩
  unfold processReply
  by_cases h1 : (decide ¬findOption m szHeader (m.length - szHeader) kOptionStatusCode = 0 &&
      !statusCodeOk m (findOption m szHeader (m.length - szHeader) kOptionStatusCode)) = true
  · simp only [h1, if_true]
  · simp only [h1, if_false, Bool.not_eq_true] at *
    by_cases h2 : findOption m szHeader (m.length - szHeader) kOptionServerIdentifier = 0
    · simp [h2]
    · by_cases h3 : serverIdOk m
        (findOption m szHeader (m.length - szHeader) kOptionServerIdentifier) = true
      · simp [h2, h3, hco, hcid]
      · simp only [Bool.not_eq_true] at h3
        simp [h2, h3]

/-- C7: a datagram with the wrong message type, or a mismatched transaction
id, or a Reply whose located ClientIdentifier DUID differs in any byte from
the node's own DUID, or a Reply whose located StatusCode option fails the
success check, leaves the entire client state unchanged — every binding,
lifetime, address, the current-binding index, the transaction id, socket,
timer, and the interface-table call log are all as before. -/
theorem handleUdpReceive_reject (eui : List Nat) (now tx : Nat) (m : List Nat)
    (s : ClientState)
    (h :
      byteAt m 0 ≠ kTypeReply ∨
      be24 (byteAt m 1) (byteAt m 2) (byteAt m 3) ≠ s.mTransactionId ∨
      ((∀ b ∈ m, b < 256) ∧
        findOption m szHeader (m.length - szHeader) kOptionClientIdentifier ≠ 0 ∧
        ¬(byteAt m (findOption m szHeader (m.length - szHeader) kOptionClientIdentifier + 4)
            = 0 ∧
          byteAt m (findOption m szHeader (m.length - szHeader) kOptionClientIdentifier + 5)
            = kDuidLinkLayerAddress ∧
          byteAt m (findOption m szHeader (m.length - szHeader) kOptionClientIdentifier + 6)
            = 0 ∧
          byteAt m (findOption m szHeader (m.length - szHeader) kOptionClientIdentifier + 7)
            = kHardwareTypeEui64 ∧
          duidLlAt m (findOption m szHeader (m.length - szHeader) kOptionClientIdentifier)
            = eui)) ∨
      (findOption m szHeader (m.length - szHeader) kOptionStatusCode ≠ 0 ∧
        statusCodeOk m (findOption m szHeader (m.length - szHeader) kOptionStatusCode)
          = false)) :
    handleUdpReceive eui now tx m s = s := by
  by_cases hre : readOk m 0 szHeader = true
  · by_cases hT : (byteAt m 0 == kTypeReply &&
        be24 (byteAt m 1) (byteAt m 2) (byteAt m 3) == s.mTransactionId) = true
    · have hgo : handleUdpReceive eui now tx m s = processReply eui now tx m s := by
        simp [handleUdpReceive, hre, hT]
      rw [hgo]
      simp only [Bool.and_eq_true, beq_iff_eq] at hT
      rcases h with hA | hB | hC | hD
      · exact absurd hT.1 hA
      · exact absurd hT.2 hB
      · exact processReply_clientId_reject eui now tx m s hC.1 hC.2.1 hC.2.2
      · exact processReply_statusCode_reject eui now tx m s hD.1 hD.2
    · simp only [Bool.not_eq_true] at hT
      simp [handleUdpReceive, hre, hT]
  · have : readOk m 0 szHeader = false := by
      cases hx : readOk m 0 szHeader
      · rfl
      · exact absurd hx hre
    simp [handleUdpReceive, this]

/-- C7 witness: a datagram whose type byte is Solicit rather than Reply is
ignored by a fresh client. -/
theorem handleUdpReceive_reject_witness :
    handleUdpReceive [1, 2, 3, 4, 5, 6, 7, 8] 0 0 [1, 0, 0, 0] (initState 1) = initState 1 :=
  handleUdpReceive_reject [1, 2, 3, 4, 5, 6, 7, 8] 0 0 [1, 0, 0, 0] (initState 1)
    (Or.inl (by decide))

/-! ### `HandleTrickleTimer` case lemmas -/

theorem htt_none {now tx : Nat} {s : ClientState} (hc : s.current = none) :
    handleTrickleTimer now tx s = (s, false) := by
  simp [handleTrickleTimer, hc]

theorem htt_solicit {now tx : Nat} {s : ClientState} {i : Nat} (hc : s.current = some i)
    (hst : (s.pool.getD i zeroIa).mStatus = IaStatus.solicit) :
    handleTrickleTimer now tx s =
      ({ s with
          mStartTime := now,
          pool := s.pool.set i { s.pool.getD i zeroIa with mStatus := .soliciting } }, true) := by
  simp only [handleTrickleTimer, hc]
  rw [hst]

theorem htt_soliciting {now tx : Nat} {s : ClientState} {i : Nat} (hc : s.current = some i)
    (hst : (s.pool.getD i zeroIa).mStatus = IaStatus.soliciting) :
    handleTrickleTimer now tx s = (s, true) := by
  simp only [handleTrickleTimer, hc]
  rw [hst]

theorem htt_invalid {now tx : Nat} {s : ClientState} {i : Nat} (hc : s.current = some i)
    (hst : (s.pool.getD i zeroIa).mStatus = IaStatus.invalid) :
    handleTrickleTimer now tx s = (s, true) := by
  simp only [handleTrickleTimer, hc]
  rw [hst]

theorem htt_replied {now tx : Nat} {s : ClientState} {i : Nat} (hc : s.current = some i)
    (hst : (s.pool.getD i zeroIa).mStatus = IaStatus.solicitReplied) :
    handleTrickleTimer now tx s =
      (if (processNextIdentityAssociation tx { s with current := none }).2 then
        ((processNextIdentityAssociation tx { s with current := none }).1, true)
      else
        ({ (processNextIdentityAssociation tx { s with current := none }).1 with
            timerRunning := false, socketOpen := false }, false)) := by
  simp only [handleTrickleTimer, hc]
  rw [hst]

theorem pnia_pool (tx : Nat) (s : ClientState) :
    ((processNextIdentityAssociation tx s).1).pool = s.pool := by
  simp only [processNextIdentityAssociation]
  repeat (first | rfl | split)

theorem pnia_log (tx : Nat) (s : ClientState) :
    ((processNextIdentityAssociation tx s).1).netifLog = s.netifLog := by
  simp only [processNextIdentityAssociation]
  repeat (first | rfl | split)

/-- after a timer fire, the interface-call log is unchanged -/
theorem htt_log (now tx : Nat) (s : ClientState) :
    ((handleTrickleTimer now tx s).1).netifLog = s.netifLog := by
  rcases hc : s.current with _ | i
  · rw [htt_none hc]
  · rcases hst : (s.pool.getD i zeroIa).mStatus with _ | _ | _ | _
    · rw [htt_invalid hc hst]
    · rw [htt_solicit hc hst]
    · rw [htt_soliciting hc hst]
    · rw [htt_replied hc hst]
      split
      · exact pnia_log tx _
      · show ((processNextIdentityAssociation tx _).1).netifLog = _
        rw [pnia_log tx _]

/-- after a timer fire, every binding whose status was not Solicit is
unchanged -/
theorem htt_getD_of_ne_solicit (now tx : Nat) (s : ClientState) (j : Nat)
    (hj : (s.pool.getD j zeroIa).mStatus ≠ IaStatus.solicit) :
    ((handleTrickleTimer now tx s).1).pool.getD j zeroIa = s.pool.getD j zeroIa := by
  rcases hc : s.current with _ | i
  · rw [htt_none hc]
  · rcases hst : (s.pool.getD i zeroIa).mStatus with _ | _ | _ | _
    · rw [htt_invalid hc hst]
    · rw [htt_solicit hc hst]
      have hij : i ≠ j := fun he => hj (he ▸ hst)
      exact getD_set_ne hij _ _
    · rw [htt_soliciting hc hst]
    · rw [htt_replied hc hst]
      split
      · rw [pnia_pool tx _]
      · show ((processNextIdentityAssociation tx _).1).pool.getD j zeroIa = _
        rw [pnia_pool tx _]

/-! ### C1: reply acceptance -/

theorem sub16_self {a : Nat} (h : a < 131072) : sub16 a a = 0 := by
  simp only [sub16]
  omega

theorem iaLoop_step (m : List Nat) (fuel aOffset length : Nat) (s : ClientState) :
    iaLoop m (fuel + 1) aOffset length s =
      if length = 0 then (true, s)
      else if findOption m aOffset length kOptionIaAddress = 0 then (true, s)
      else
        match processIaAddress m (findOption m aOffset length kOptionIaAddress) s with
        | (false, s') => (false, s')
        | (true, s') =>
            iaLoop m fuel ((findOption m aOffset length kOptionIaAddress + szIaAddress) % 65536)
              (sub16 length (sub16 (findOption m aOffset length kOptionIaAddress) aOffset +
                szIaAddress)) s' := rfl

/-- success case of `ProcessIaAddress`: the option is well-formed and a
matching binding exists -/
theorem processIaAddress_found {m : List Nat} {o : Nat} {s : ClientState} {j : Nat}
    (hr : readOk m o szIaAddress = true)
    (hlen : lenAt m o = szIaAddress - szOption)
    (hj : firstIdx (iaMatchB (iaAddrAt m o)) s.pool = some j) :
    processIaAddress m o s =
      (true,
        { s with
            pool := s.pool.set j (applyIaAddr m o (s.pool.getD j zeroIa)),
            netifLog := s.netifLog ++
              [NetifEvent.addAddr (applyIaAddr m o (s.pool.getD j zeroIa)).mNetifAddress] }) := by
  simp [processIaAddress, hr, hlen, hj]

/-- success case of `ProcessIaNa` for a container declaring exactly one
IA-Address in its nested window -/
theorem processIaNa_one_address {m : List Nat} {o : Nat} {s s1 : ClientState}
    (hr : readOk m o szIaNa = true)
    (hwin : iaNaWindow m o = szIaAddress)
    (hfit : szIaAddress ≤ m.length - (o + szIaNa))
    (hox : o + szIaNa < 131072)
    (hso : findOption m (o + szIaNa) szIaAddress kOptionStatusCode = 0 ∨
      statusCodeOk m (findOption m (o + szIaNa) szIaAddress kOptionStatusCode) = true)
    (hfa : findOption m (o + szIaNa) szIaAddress kOptionIaAddress = o + szIaNa)
    (hpa : processIaAddress m (o + szIaNa) s = (true, s1)) :
    processIaNa m o s = (true, s1) := by
  have hbody : processIaNa m o s = processIaNaBody m (o + szIaNa) szIaAddress s := by
    simp [processIaNa, hr, hwin, hfit]
  rw [hbody]
  have hskip : processIaNaBody m (o + szIaNa) szIaAddress s =
      iaLoop m (szIaAddress + 1) (o + szIaNa) szIaAddress s := by
    rcases hso with hz | hok
    · simp [processIaNaBody, hz]
    · simp [processIaNaBody, hok]
  rw [hskip]
  have h28 : (szIaAddress : Nat) + 1 = 28 + 1 := rfl
  rw [h28, iaLoop_step]
  have hne : ¬(szIaAddress = 0) := by simp [szIaAddress]
  rw [if_neg hne]
  simp only [hfa]
  have hoo : ¬(o + szIaNa = 0) := by simp only [szIaNa]; omega
  rw [if_neg hoo]
  simp only [hpa]
  have hlen0 : sub16 szIaAddress (sub16 (o + szIaNa) (o + szIaNa) + szIaAddress) = 0 := by
    rw [sub16_self hox]
    decide
  rw [hlen0]
  rw [show (28 : Nat) = 27 + 1 from rfl, iaLoop_step]
  simp

/-- success path of `ProcessReply` up to and including the IA parse; the
final `HandleTrickleTimer` call is applied to the post-IA state -/
theorem processReply_accept (eui : List Nat) (now tx : Nat) (m : List Nat)
    (s s1 : ClientState)
    (h4 : findOption m szHeader (m.length - szHeader) kOptionStatusCode = 0 ∨
      statusCodeOk m (findOption m szHeader (m.length - szHeader) kOptionStatusCode) = true)
    (h5 : findOption m szHeader (m.length - szHeader) kOptionServerIdentifier ≠ 0)
    (h6 : serverIdOk m (findOption m szHeader (m.length - szHeader) kOptionServerIdentifier)
      = true)
    (h7 : findOption m szHeader (m.length - szHeader) kOptionClientIdentifier ≠ 0)
    (h8 : clientIdOk eui m (findOption m szHeader (m.length - szHeader) kOptionClientIdentifier)
      = true)
    (h9 : findOption m szHeader (m.length - szHeader) kOptionRapidCommit ≠ 0)
    (hio : findOption m szHeader (m.length - szHeader) kOptionIaNa ≠ 0)
    (hpi : processIaNa m (findOption m szHeader (m.length - szHeader) kOptionIaNa) s
      = (true, s1)) :
    processReply eui now tx m s = (handleTrickleTimer now tx s1).1 := by
  have hskip : ¬((findOption m szHeader (m.length - szHeader) kOptionStatusCode ≠ 0 &&
      !statusCodeOk m (findOption m szHeader (m.length - szHeader) kOptionStatusCode))
        = true) := by
    rcases h4 with hz | hok
    · simp [hz]
    · simp [hok]
  simp only [processReply, hskip, if_false, Bool.false_eq_true]
  simp [h5, h6, h7, h8, h9, hio, hpi]

/-- C1 (amended): a well-formed Reply matching the outstanding transaction,
with acceptable StatusCode, ServerIdentifier, ClientIdentifier and
RapidCommit options, whose IA container holds exactly one IA-Address, causes
the first binding in pool order that is live, unconfirmed, and shares at
least its prefix length with the offered address to be overwritten with the
option's address and lifetimes, marked Replied, and installed via the
interface-table add call; when the soliciting binding is that first match, it
is the one updated.  (The parser picks the first matching binding, which need
not be the soliciting one — see the counterexample.) -/
theorem reply_acceptance (eui : List Nat) (now tx : Nat) (m : List Nat)
    (s : ClientState) (io o1 j : Nat)
    (hiodef : io = findOption m szHeader (m.length - szHeader) kOptionIaNa)
    (ho1def : o1 = io + szIaNa)
    (h1 : readOk m 0 szHeader = true)
    (h2 : byteAt m 0 = kTypeReply)
    (h3 : be24 (byteAt m 1) (byteAt m 2) (byteAt m 3) = s.mTransactionId)
    (h4 : findOption m szHeader (m.length - szHeader) kOptionStatusCode = 0 ∨
      statusCodeOk m (findOption m szHeader (m.length - szHeader) kOptionStatusCode) = true)
    (h5 : findOption m szHeader (m.length - szHeader) kOptionServerIdentifier ≠ 0)
    (h6 : serverIdOk m (findOption m szHeader (m.length - szHeader) kOptionServerIdentifier)
      = true)
    (h7 : findOption m szHeader (m.length - szHeader) kOptionClientIdentifier ≠ 0)
    (h8 : clientIdOk eui m (findOption m szHeader (m.length - szHeader) kOptionClientIdentifier)
      = true)
    (h9 : findOption m szHeader (m.length - szHeader) kOptionRapidCommit ≠ 0)
    (hio : io ≠ 0)
    (hr16 : readOk m io szIaNa = true)
    (hwin : iaNaWindow m io = szIaAddress)
    (hfit : szIaAddress ≤ m.length - o1)
    (hso : findOption m o1 szIaAddress kOptionStatusCode = 0 ∨
      statusCodeOk m (findOption m o1 szIaAddress kOptionStatusCode) = true)
    (hfa : findOption m o1 szIaAddress kOptionIaAddress = o1)
    (hlen : lenAt m o1 = szIaAddress - szOption)
    (hj : firstIdx (iaMatchB (iaAddrAt m o1)) s.pool = some j)
    (hsolj : (s.pool.getD j zeroIa).mStatus = IaStatus.soliciting) :
    (handleUdpReceive eui now tx m s).pool.getD j zeroIa =
      applyIaAddr m o1 (s.pool.getD j zeroIa) ∧
    (applyIaAddr m o1 (s.pool.getD j zeroIa)).mStatus = IaStatus.solicitReplied ∧
    (applyIaAddr m o1 (s.pool.getD j zeroIa)).mNetifAddress.mAddress = iaAddrAt m o1 ∧
    (applyIaAddr m o1 (s.pool.getD j zeroIa)).mPreferredLifetime = iaPltAt m o1 ∧
    (applyIaAddr m o1 (s.pool.getD j zeroIa)).mValidLifetime = iaVltAt m o1 ∧
    (handleUdpReceive eui now tx m s).netifLog =
      s.netifLog ++ [NetifEvent.addAddr (applyIaAddr m o1 (s.pool.getD j zeroIa)).mNetifAddress]
    := by
  have hjlt := (firstIdx_some hj zeroIa).1
  have hiole : io ≤ 65535 := by
    rw [hiodef]
    exact findOption_le_end (hiodef ▸ hio)
  have hox : io + szIaNa < 131072 := by
    simp only [szIaNa]
    omega
  have hra : readOk m o1 szIaAddress = true := by
    have ha : io + 16 ≤ m.length := by
      simpa [readOk, szIaNa] using hr16
    have hb : (28 : Nat) ≤ m.length - (io + 16) := by
      have hcopy := hfit
      rw [ho1def] at hcopy
      simpa [szIaAddress, szIaNa] using hcopy
    simp only [readOk, szIaAddress, ho1def, szIaNa, decide_eq_true_eq]
    omega
  set s1 : ClientState :=
    { s with
        pool := s.pool.set j (applyIaAddr m o1 (s.pool.getD j zeroIa)),
        netifLog := s.netifLog ++
          [NetifEvent.addAddr (applyIaAddr m o1 (s.pool.getD j zeroIa)).mNetifAddress] }
    with hs1
  have hpa : processIaAddress m o1 s = (true, s1) := processIaAddress_found hra hlen hj
  have hfit' : szIaAddress ≤ m.length - (io + szIaNa) := ho1def ▸ hfit
  have hso' : findOption m (io + szIaNa) szIaAddress kOptionStatusCode = 0 ∨
      statusCodeOk m (findOption m (io + szIaNa) szIaAddress kOptionStatusCode) = true :=
    ho1def ▸ hso
  have hfa' : findOption m (io + szIaNa) szIaAddress kOptionIaAddress = io + szIaNa :=
    ho1def ▸ hfa
  have hpa' : processIaAddress m (io + szIaNa) s = (true, s1) := ho1def ▸ hpa
  have hpi : processIaNa m io s = (true, s1) :=
    processIaNa_one_address hr16 hwin hfit' hox hso' hfa' hpa'
  have hio' : findOption m szHeader (m.length - szHeader) kOptionIaNa ≠ 0 := hiodef ▸ hio
  have hpi' : processIaNa m (findOption m szHeader (m.length - szHeader) kOptionIaNa) s
      = (true, s1) := hiodef ▸ hpi
  have hrepl : processReply eui now tx m s = (handleTrickleTimer now tx s1).1 :=
    processReply_accept eui now tx m s s1 h4 h5 h6 h7 h8 h9 hio' hpi'
  have hrecv : handleUdpReceive eui now tx m s = (handleTrickleTimer now tx s1).1 := by
    rw [← hrepl]
    simp [handleUdpReceive, h1, h2, h3]
  have hs1j : s1.pool.getD j zeroIa = applyIaAddr m o1 (s.pool.getD j zeroIa) := by
    rw [hs1]
    exact getD_set_self hjlt _ _
  have hstat : (s1.pool.getD j zeroIa).mStatus = IaStatus.solicitReplied := by
    rw [hs1j]
    rfl
  refine ⟨?_, rfl, rfl, rfl, rfl, ?_⟩
  · rw [hrecv, htt_getD_of_ne_solicit now tx s1 j (by rw [hstat]; intro hcon; cases hcon), hs1j]
  · rw [hrecv, htt_log, hs1]

/-- C1 counterexample: the client state `exCxS` holds a pending /48 binding
at pool index 0 and the soliciting /64 binding at index 1; the well-formed
Reply `exMsgB` offers an address inside the /64 prefix, which also shares 48
bits with the /48 binding.  The parser updates the FIRST matching binding in
pool order — the /48 one — so the soliciting binding does not transition to
Replied, contradicting the claim. -/
theorem reply_acceptance_cx :
    (exCxS.pool.getD 1 zeroIa).mStatus = IaStatus.soliciting ∧
    (exCxS.pool.getD 1 zeroIa).mValidLifetime = 0 ∧
    exCxS.current = some 1 ∧
    byteAt exMsgB 0 = kTypeReply ∧
    be24 (byteAt exMsgB 1) (byteAt exMsgB 2) (byteAt exMsgB 3) = exCxS.mTransactionId ∧
    findOption exMsgB szHeader (exMsgB.length - szHeader) kOptionIaNa = 40 ∧
    64 ≤ prefixMatch (exCxS.pool.getD 1 zeroIa).mNetifAddress.mAddress (iaAddrAt exMsgB 56) ∧
    ((handleUdpReceive exEui 0 9 exMsgB exCxS).pool.getD 1 zeroIa).mStatus =
      IaStatus.soliciting ∧
    ((handleUdpReceive exEui 0 9 exMsgB exCxS).pool.getD 0 zeroIa).mStatus =
      IaStatus.solicitReplied := by
  decide

/-- C1 witness: the soliciting binding of trace state `exS2` is the first
matching binding for the Reply `exMsg`, so it transitions to Replied. -/
theorem reply_acceptance_witness :
    ((handleUdpReceive exEui 0 9 exMsg exS2).pool.getD 0 zeroIa).mStatus =
      IaStatus.solicitReplied ∧
    (handleUdpReceive exEui 0 9 exMsg exS2).netifLog =
      exS2.netifLog ++
        [NetifEvent.addAddr (applyIaAddr exMsg 56 (exS2.pool.getD 0 zeroIa)).mNetifAddress] := by
  have h := reply_acceptance exEui 0 9 exMsg exS2 40 56 0
    (by decide) (by decide) (by decide) (by decide) (by decide) (by decide) (by decide)
    (by decide) (by decide) (by decide) (by decide) (by decide) (by decide) (by decide)
    (by decide) (by decide) (by decide) (by decide) (by decide) (by decide)
  refine ⟨?_, h.2.2.2.2.2⟩
  rw [h.1]
  exact h.2.1

/-! ### C4 counterexample: an Invalid binding with nonzero validLifetime -/

/-- C4 counterexample: the four-event trace reconcile, timer fire, Reply
receive, reconcile-with-empty-configuration reaches a state whose sole
binding is Invalid while its validLifetime is still 100 — the withdrawal path
sets `mStatus = kIaStatusInvalid` without clearing `mValidLifetime`. -/
theorem invalid_nonzero_lifetime_cx :
    Reachable exEui exS4 ∧
    (exS4.pool.getD 0 zeroIa).mStatus = IaStatus.invalid ∧
    (exS4.pool.getD 0 zeroIa).mValidLifetime = 100 := by
  refine ⟨?_, by decide, by decide⟩
  have t0 : Reachable exEui (initState 1) := Reachable.init 1
  have t1 : Reachable exEui exS1 := Reachable.step t0 (Step.reconcile exCfg 9 (initState 1))
  have t2 : Reachable exEui exS2 := Reachable.step t1 (Step.timer 0 9 exS1)
  have t3 : Reachable exEui exS3 := Reachable.step t2 (Step.receive 0 9 exMsg exS2)
  exact Reachable.step t3 (Step.reconcile [] 9 exS3)

/-! ### C2 and C4: reachability invariants

`PoolInv cur pool` packages the two inductive invariants: every Soliciting
binding is the current one, and every Solicit or Soliciting binding is still
unconfirmed (`mValidLifetime = 0`). -/

theorem getD_map_lt {l : List α} {f : α → α} {i : Nat} (h : i < l.length) (d : α) :
    (l.map f).getD i d = f (l.getD i d) := by
  induction l generalizing i with
  | nil => simp at h
  | cons x xs ih =>
      cases i with
      | zero => rfl
      | succ n => simpa using @ih n (by simpa using h)

theorem getD_replicate_self {n i : Nat} {a : α} : (List.replicate n a).getD i a = a := by
  induction n generalizing i with
  | zero => rfl
  | succ k ih =>
      cases i with
      | zero => rfl
      | succ j => simpa [List.replicate] using ih

/-- updating one slot preserves `PoolInv` when the new contents keep the old
status and lifetime, claim the slot as fresh Solicit, or mark it Replied -/
theorem poolInv_set_of {cur : Option Nat} {pool : List IdentityAssociation}
    {i : Nat} {ia' : IdentityAssociation}
    (hInv : PoolInv cur pool) (hi : i < pool.length)
    (h : (ia'.mStatus = (pool.getD i zeroIa).mStatus ∧
          ia'.mValidLifetime = (pool.getD i zeroIa).mValidLifetime) ∨
         (ia'.mStatus = IaStatus.solicit ∧ ia'.mValidLifetime = 0) ∨
         ia'.mStatus = IaStatus.solicitReplied) :
    PoolInv cur (pool.set i ia') := by
  obtain ⟨h1, h2⟩ := hInv
  constructor
  · intro k hk hsol
    rw [List.length_set] at hk
    by_cases hik : i = k
    · subst hik
      rw [getD_set_self hi _ _] at hsol
      rcases h with ⟨hs, _⟩ | ⟨hs, _⟩ | hs
      · exact h1 i hi (hs ▸ hsol)
      · rw [hsol] at hs; cases hs
      · rw [hsol] at hs; cases hs
    · rw [getD_set_ne hik _ _] at hsol
      exact h1 k hk hsol
  · intro k hk hsol
    rw [List.length_set] at hk
    by_cases hik : i = k
    · subst hik
      rw [getD_set_self hi _ _] at hsol ⊢
      rcases h with ⟨hs, hv⟩ | ⟨_, hv⟩ | hs
      · rw [hv]; exact h2 i hi (by rw [← hs]; exact hsol)
      · exact hv
      · rcases hsol with hx | hx <;> rw [hx] at hs <;> cases hs
    · rw [getD_set_ne hik _ _] at hsol ⊢
      exact h2 k hk hsol

theorem processPfxCfg_found {pool : List IdentityAssociation} {c : PfxCfg} {i : Nat}
    (hf : firstIdx (keyedB c) pool = some i) :
    processPfxCfg pool c = pool.set i (setRloc c.mRloc16 (pool.getD i zeroIa)) := by
  unfold processPfxCfg
  rw [hf]

theorem processPfxCfg_claim {pool : List IdentityAssociation} {c : PfxCfg} {j : Nat}
    (hf : firstIdx (keyedB c) pool = none)
    (hg : firstIdx (fun ia => ia.mStatus == IaStatus.invalid) pool = some j) :
    processPfxCfg pool c = pool.set j (claimIa c (pool.getD j zeroIa)) := by
  unfold processPfxCfg
  rw [hf, hg]

theorem processPfxCfg_skip {pool : List IdentityAssociation} {c : PfxCfg}
    (hf : firstIdx (keyedB c) pool = none)
    (hg : firstIdx (fun ia => ia.mStatus == IaStatus.invalid) pool = none) :
    processPfxCfg pool c = pool := by
  unfold processPfxCfg
  rw [hf, hg]

theorem poolInv_processPfxCfg {cur : Option Nat} {pool : List IdentityAssociation}
    (hInv : PoolInv cur pool) (c : PfxCfg) : PoolInv cur (processPfxCfg pool c) := by
  rcases hf : firstIdx (keyedB c) pool with _ | i
  · rcases hg : firstIdx (fun ia => ia.mStatus == IaStatus.invalid) pool with _ | j
    · rw [processPfxCfg_skip hf hg]
      exact hInv
    · rw [processPfxCfg_claim hf hg]
      exact poolInv_set_of hInv (firstIdx_some hg zeroIa).1 (Or.inr (Or.inl ⟨rfl, rfl⟩))
  · rw [processPfxCfg_found hf]
    exact poolInv_set_of hInv (firstIdx_some hf zeroIa).1 (Or.inl ⟨rfl, rfl⟩)

theorem poolInv_foldl {cur : Option Nat} :
    ∀ (l : List PfxCfg) (pool : List IdentityAssociation), PoolInv cur pool →
      PoolInv cur (l.foldl processPfxCfg pool) := by
  intro l
  induction l with
  | nil => intro pool h; exact h
  | cons c cs ih => intro pool h; exact ih _ (poolInv_processPfxCfg h c)

theorem poolInv_additions {cur : Option Nat} {pool : List IdentityAssociation}
    (hInv : PoolInv cur pool) (cfg : List PfxCfg) : PoolInv cur (additions cfg pool) :=
  poolInv_foldl _ pool hInv

theorem poolInv_invalidation {cur : Option Nat} {pool : List IdentityAssociation}
    (hInv : PoolInv cur pool) (cfg : List PfxCfg) :
    PoolInv cur (pool.map fun ia =>
      if shouldInvalidate cfg ia then { ia with mStatus := IaStatus.invalid } else ia) := by
  obtain ⟨h1, h2⟩ := hInv
  constructor
  · intro k hk hsol
    rw [List.length_map] at hk
    rw [getD_map_lt hk] at hsol
    by_cases hs : shouldInvalidate cfg (pool.getD k zeroIa) = true
    · rw [if_pos hs] at hsol; cases hsol
    · rw [if_neg hs] at hsol
      exact h1 k hk hsol
  · intro k hk hsol
    rw [List.length_map] at hk
    rw [getD_map_lt hk] at hsol ⊢
    by_cases hs : shouldInvalidate cfg (pool.getD k zeroIa) = true
    · rw [if_pos hs] at hsol; rcases hsol with hx | hx <;> cases hx
    · rw [if_neg hs] at hsol ⊢
      exact h2 k hk hsol

/-- `ProcessNextIdentityAssociation` preserves the client invariant -/
theorem clientInv_pnia {tx : Nat} {s : ClientState} (h : ClientInv s) :
    ClientInv (processNextIdentityAssociation tx s).1 := by
  simp only [processNextIdentityAssociation]
  split
  · exact h
  · rename_i hnb
    have hnosol : ∀ k, k < s.pool.length →
        (s.pool.getD k zeroIa).mStatus ≠ IaStatus.soliciting := by
      intro k hk hcon
      have hck := h.1 k hk hcon
      apply hnb
      rw [hck]
      show ((s.pool.getD k zeroIa).mStatus == IaStatus.soliciting) = true
      rw [hcon]
      rfl
    split
    · rename_i j hj
      refine ⟨?_, ?_⟩
      · intro k hk hsol
        exact absurd hsol (hnosol k hk)
      · intro k hk hsol
        exact h.2 k hk hsol
    · exact h

/-- `HandleTrickleTimer` preserves the client invariant -/
theorem clientInv_htt {now tx : Nat} {s : ClientState} (h : ClientInv s) :
    ClientInv (handleTrickleTimer now tx s).1 := by
  rcases hc : s.current with _ | i
  · rw [htt_none hc]
    exact h
  · rcases hst : (s.pool.getD i zeroIa).mStatus with _ | _ | _ | _
    · rw [htt_invalid hc hst]
      exact h
    · rw [htt_solicit hc hst]
      have hi : i < s.pool.length := by
        by_contra hlen
        rw [List.getD_eq_default _ _ (by omega)] at hst
        cases hst
      refine ⟨?_, ?_⟩
      · intro k hk hsol
        rw [List.length_set] at hk
        by_cases hik : i = k
        · subst hik
          exact hc
        · rw [getD_set_ne hik _ _] at hsol
          have hck := h.1 k hk hsol
          rw [hc] at hck
          exact absurd (Option.some.inj hck) hik
      · intro k hk hsol
        rw [List.length_set] at hk
        by_cases hik : i = k
        · subst hik
          rw [getD_set_self hi _ _]
          exact h.2 i hi (Or.inl hst)
        · rw [getD_set_ne hik _ _] at hsol ⊢
          exact h.2 k hk hsol
    · rw [htt_soliciting hc hst]
      exact h
    · rw [htt_replied hc hst]
      have h1 : ClientInv { s with current := none } := by
        refine ⟨?_, h.2⟩
        intro k hk hsol
        have hck := h.1 k hk hsol
        rw [hc] at hck
        obtain rfl : i = k := Option.some.inj hck
        rw [hst] at hsol
        cases hsol
      have h2 : ClientInv (processNextIdentityAssociation tx { s with current := none }).1 :=
        clientInv_pnia h1
      split
      · exact h2
      · exact h2

/-- `ProcessIaAddress` preserves the client invariant -/
theorem clientInv_pia {m : List Nat} {o : Nat} {s : ClientState} (h : ClientInv s) :
    ClientInv (processIaAddress m o s).2 := by
  simp only [processIaAddress]
  split
  · exact h
  split
  · exact h
  split
  · rename_i j hj
    exact poolInv_set_of h (firstIdx_some hj zeroIa).1 (Or.inr (Or.inr rfl))
  · exact h

/-- the IA-Address scan loop preserves the client invariant -/
theorem clientInv_iaLoop {m : List Nat} :
    ∀ (fuel ao len : Nat) {s : ClientState}, ClientInv s → ClientInv (iaLoop m fuel ao len s).2 := by
  intro fuel
  induction fuel with
  | zero => intro ao len s h; exact h
  | succ n ih =>
      intro ao len s h
      rw [iaLoop_step]
      by_cases hl : len = 0
      · rw [if_pos hl]; exact h
      · rw [if_neg hl]
        by_cases ho : findOption m ao len kOptionIaAddress = 0
        · rw [if_pos ho]; exact h
        · rw [if_neg ho]
          split
          · rename_i s1 heq
            have hq := clientInv_pia (m := m) (o := findOption m ao len kOptionIaAddress) h
            rw [heq] at hq
            exact hq
          · rename_i s1 heq
            have hq := clientInv_pia (m := m) (o := findOption m ao len kOptionIaAddress) h
            rw [heq] at hq
            exact ih _ _ hq

/-- `ProcessIaNa` preserves the client invariant -/
theorem clientInv_pin {m : List Nat} {o : Nat} {s : ClientState} (h : ClientInv s) :
    ClientInv (processIaNa m o s).2 := by
  simp only [processIaNa]
  split
  · exact h
  split
  · exact h
  simp only [processIaNaBody]
  split
  · exact h
  exact clientInv_iaLoop _ _ _ h

/-- `ProcessReply` preserves the client invariant -/
theorem clientInv_processReply {eui : List Nat} {now tx : Nat} {m : List Nat} {s : ClientState}
    (h : ClientInv s) : ClientInv (processReply eui now tx m s) := by
  simp only [processReply]
  split
  · exact h
  split
  · exact h
  split
  · exact h
  split
  · exact h
  split
  · exact h
  split
  · exact h
  split
  · exact h
  split
  · rename_i s1 heq
    have hq := clientInv_pin (m := m)
      (o := findOption m szHeader (m.length - szHeader) kOptionIaNa) h
    rw [heq] at hq
    exact clientInv_htt hq
  · rename_i s1 heq
    have hq := clientInv_pin (m := m)
      (o := findOption m szHeader (m.length - szHeader) kOptionIaNa) h
    rw [heq] at hq
    exact hq

/-- `HandleUdpReceive` preserves the client invariant -/
theorem clientInv_receive {eui : List Nat} {now tx : Nat} {m : List Nat} {s : ClientState}
    (h : ClientInv s) : ClientInv (handleUdpReceive eui now tx m s) := by
  simp only [handleUdpReceive]
  split
  · exact h
  split
  · exact clientInv_processReply h
  · exact h

/-- `UpdateAddresses` preserves the client invariant -/
theorem clientInv_updateAddresses {cfg : List PfxCfg} {tx : Nat} {s : ClientState}
    (h : ClientInv s) : ClientInv (updateAddresses cfg tx s) := by
  simp only [updateAddresses]
  have hpool : PoolInv s.current (additions cfg (s.pool.map fun ia =>
      if shouldInvalidate cfg ia then { ia with mStatus := IaStatus.invalid } else ia)) :=
    poolInv_additions (poolInv_invalidation h cfg) cfg
  split
  · simp only [start]
    split
    · exact hpool
    · exact clientInv_pnia hpool
  · exact hpool

/-- the constructor state satisfies the client invariant -/
theorem clientInv_init (n : Nat) : ClientInv (initState n) := by
  refine ⟨?_, ?_⟩
  · intro i hi hsol
    rw [show (initState n).pool = List.replicate n zeroIa from rfl,
      getD_replicate_self] at hsol
    cases hsol
  · intro i hi hsol
    rw [show (initState n).pool = List.replicate n zeroIa from rfl,
      getD_replicate_self] at hsol
    rcases hsol with hx | hx <;> cases hx

/-- every reachable state satisfies the client invariant -/
theorem clientInv_reachable {eui : List Nat} {s : ClientState} (h : Reachable eui s) :
    ClientInv s := by
  induction h with
  | init n => exact clientInv_init n
  | step hr hstep ih =>
      cases hstep with
      | reconcile cfg tx s => exact clientInv_updateAddresses ih
      | timer now tx s => exact clientInv_htt ih
      | receive now tx m s => exact clientInv_receive ih

/-- C2: in every state reachable from the constructor state by any sequence
of reconcile, trickle-timer fire, and datagram receive, at most one binding
in the pool has status Soliciting. -/
theorem single_soliciting (eui : List Nat) (s : ClientState) (h : Reachable eui s) :
    atMostOneSoliciting s := by
  intro i j hi hj hsi hsj
  have h1 := (clientInv_reachable h).1 i hi hsi
  have h2 := (clientInv_reachable h).1 j hj hsj
  exact Option.some.inj (h1.symm.trans h2)

/-- C2 witness: the invariant holds at the reachable state `exS2`, whose sole
binding is Soliciting. -/
theorem single_soliciting_witness : atMostOneSoliciting exS2 :=
  single_soliciting exEui exS2
    (Reachable.step
      (Reachable.step (Reachable.init 1) (Step.reconcile exCfg 9 (initState 1)))
      (Step.timer 0 9 exS1))

/-- C4 (amended): in every reachable state, every binding with status
Solicit or Soliciting is still unconfirmed (`mValidLifetime = 0`); an
Invalid binding, however, may retain a nonzero validLifetime after
withdrawal, because the invalidation path does not clear the lifetime (only
slot reuse resets it to 0). -/
theorem solicit_unconfirmed_invariant (eui : List Nat) (s : ClientState)
    (h : Reachable eui s) : solicitUnconfirmed s :=
  (clientInv_reachable h).2

/-- C4 witness: the property holds at the reachable state `exS2`. -/
theorem solicit_unconfirmed_invariant_witness : solicitUnconfirmed exS2 :=
  solicit_unconfirmed_invariant exEui exS2
    (Reachable.step
      (Reachable.step (Reachable.init 1) (Step.reconcile exCfg 9 (initState 1)))
      (Step.timer 0 9 exS1))

/-! ### C9: pool exhaustion -/

theorem getD_append_left {l1 l2 : List α} {i : Nat} (h : i < l1.length) (d : α) :
    (l1 ++ l2).getD i d = l1.getD i d := by
  induction l1 generalizing i with
  | nil => simp at h
  | cons x xs ih =>
      cases i with
      | zero => rfl
      | succ n => simpa using @ih n (by simpa using h)

theorem getD_append_len {l1 l2 : List α} (d : α) :
    (l1 ++ l2).getD l1.length d = l2.getD 0 d := by
  induction l1 with
  | nil => rfl
  | cons x xs ih => simpa using ih

theorem set_append_len {l1 l2 : List α} (b : α) :
    (l1 ++ l2).set l1.length b = l1 ++ l2.set 0 b := by
  induction l1 with
  | nil => rfl
  | cons x xs ih => simp [ih]

theorem firstIdx_eq_none_mem {p : α → Bool} {l : List α}
    (h : ∀ x ∈ l, p x = false) : firstIdx p l = none := by
  induction l with
  | nil => rfl
  | cons x xs ih =>
      simp [firstIdx, h x (by simp), ih fun y hy => h y (List.mem_cons_of_mem _ hy)]

theorem keyedB_zeroIa (c : PfxCfg) : keyedB c zeroIa = false := by
  simp [keyedB, zeroIa]

theorem invalidB_claimIa (c : PfxCfg) (ia : IdentityAssociation) :
    ((claimIa c ia).mStatus == IaStatus.invalid) = false := by
  simp [claimIa]

/-- folding DHCP-eligible prefixes over a pool of already-claimed slots
followed by free slots: each new prefix claims the next free slot in order,
and prefixes beyond the capacity are skipped -/
theorem additions_exhaust :
    ∀ (l done : List PfxCfg) (mfree : Nat),
      List.Pairwise (fun a b => keyedB b (claimIa a zeroIa) = false) l →
      (∀ c ∈ l, ∀ d ∈ done, keyedB c (claimIa d zeroIa) = false) →
      l.foldl processPfxCfg
        ((done.map fun d => claimIa d zeroIa) ++ List.replicate mfree zeroIa) =
      ((done ++ l.take mfree).map fun d => claimIa d zeroIa) ++
        List.replicate (mfree - l.length) zeroIa := by
  intro l
  induction l with
  | nil =>
      intro done mfree _ _
      simp
  | cons c l' ih =>
      intro done mfree hpw hdone
      have hkey : firstIdx (keyedB c)
          ((done.map fun d => claimIa d zeroIa) ++ List.replicate mfree zeroIa) = none := by
        apply firstIdx_eq_none_mem
        intro x hx
        rcases List.mem_append.mp hx with hx1 | hx2
        · obtain ⟨d, hd, rfl⟩ := List.mem_map.mp hx1
          exact hdone c (by simp) d hd
        · rw [List.eq_of_mem_replicate hx2]
          exact keyedB_zeroIa c
      have hpw' : List.Pairwise (fun a b => keyedB b (claimIa a zeroIa) = false) l' :=
        (List.pairwise_cons.mp hpw).2
      have hcl' : ∀ b ∈ l', keyedB b (claimIa c zeroIa) = false :=
        (List.pairwise_cons.mp hpw).1
      cases mfree with
      | zero =>
          have hinv : firstIdx (fun ia => ia.mStatus == IaStatus.invalid)
              ((done.map fun d => claimIa d zeroIa) ++ List.replicate 0 zeroIa) = none := by
            apply firstIdx_eq_none_mem
            intro x hx
            rcases List.mem_append.mp hx with hx1 | hx2
            · obtain ⟨d, hd, rfl⟩ := List.mem_map.mp hx1
              exact invalidB_claimIa d zeroIa
            · simp at hx2
          have hstep := processPfxCfg_skip hkey hinv
          rw [List.foldl_cons, hstep]
          rw [ih done 0 hpw' fun a ha d hd => hdone a (List.mem_cons_of_mem _ ha) d hd]
          simp
      | succ k =>
          have hlen : (done.map fun d => claimIa d zeroIa).length = done.length := by
            simp
          have hinv : firstIdx (fun ia => ia.mStatus == IaStatus.invalid)
              ((done.map fun d => claimIa d zeroIa) ++ List.replicate (k + 1) zeroIa) =
              some done.length := by
            apply firstIdx_eq_some zeroIa
            · simp
            · rw [← hlen, getD_append_len]
              simp [List.replicate_succ, zeroIa]
            · intro j hj
              have hjm : j < (done.map fun d => claimIa d zeroIa).length := by
                rw [hlen]; omega
              rw [getD_append_left hjm _]
              obtain ⟨d, hd, heq⟩ := List.mem_map.mp (getD_mem hjm zeroIa)
              rw [← heq]
              exact invalidB_claimIa d zeroIa
          have hstep := processPfxCfg_claim hkey hinv
          rw [List.foldl_cons, hstep]
          have hgd : ((done.map fun d => claimIa d zeroIa) ++
              List.replicate (k + 1) zeroIa).getD done.length zeroIa = zeroIa := by
            rw [← hlen, getD_append_len]
            simp [List.replicate_succ]
          rw [hgd]
          have hset : ((done.map fun d => claimIa d zeroIa) ++
              List.replicate (k + 1) zeroIa).set done.length (claimIa c zeroIa) =
              ((done ++ [c]).map fun d => claimIa d zeroIa) ++ List.replicate k zeroIa := by
            rw [← hlen, set_append_len]
            simp [List.replicate_succ]
          rw [hset]
          rw [ih (done ++ [c]) k hpw' ?_]
          · simp only [List.take_succ_cons, List.length_cons, List.append_assoc,
              List.singleton_append]
            rw [show k + 1 - (l'.length + 1) = k - l'.length from by omega]
          · intro a ha d hd
            rcases List.mem_append.mp hd with hd1 | hd2
            · exact hdone a (List.mem_cons_of_mem _ ha) d hd1
            · simp at hd2
              subst hd2
              exact hcl' a ha

theorem start_pool (tx : Nat) (s : ClientState) : (start tx s).pool = s.pool := by
  simp only [start]
  split
  · rfl
  · exact pnia_pool tx _

theorem shouldInvalidate_zeroIa (cfg : List PfxCfg) : shouldInvalidate cfg zeroIa = false := by
  simp [shouldInvalidate, zeroIa]

/-- C9: reconciling a fresh N-slot client with N+1 DHCP-eligible, pairwise
non-matching prefixes claims exactly N slots — slot i holds prefix i as a
fresh PendingSolicit binding with validLifetime 0 and the prefix's agent
locator — while the last prefix is left unserved: no binding matches it, no
slot is allocated for it, and the reconcile completes normally. -/
theorem exhaustion (n tx : Nat) (qs : List PfxCfg) (plast : PfxCfg)
    (hlen : qs.length = n)
    (hdhcp : ∀ c ∈ qs ++ [plast], c.mDhcp = true)
    (hdist : List.Pairwise (fun a b => keyedB b (claimIa a zeroIa) = false) (qs ++ [plast])) :
    (updateAddresses (qs ++ [plast]) tx (initState n)).pool =
      (qs.map fun d => claimIa d zeroIa) ∧
    (∀ ia ∈ (updateAddresses (qs ++ [plast]) tx (initState n)).pool,
      keyedB plast ia = false) := by
  have hfilter : (qs ++ [plast]).filter (·.mDhcp) = qs ++ [plast] := by
    rw [List.filter_eq_self]
    intro a ha
    simp [hdhcp a ha]
  have hany : (qs ++ [plast]).any (·.mDhcp) = true := by
    rw [List.any_eq_true]
    exact ⟨plast, by simp, by simp [hdhcp plast (by simp)]⟩
  have hmap1 : ((initState n).pool.map fun ia =>
      if shouldInvalidate (qs ++ [plast]) ia then { ia with mStatus := IaStatus.invalid }
      else ia) = List.replicate n zeroIa := by
    show ((List.replicate n zeroIa).map _) = _
    rw [map_self_of_fixed]
    intro x hx
    rw [List.eq_of_mem_replicate hx]
    simp [shouldInvalidate_zeroIa]
  have hpool2 : additions (qs ++ [plast]) (List.replicate n zeroIa) =
      qs.map fun d => claimIa d zeroIa := by
    have h0 := additions_exhaust (qs ++ [plast]) [] n hdist (by simp)
    simp only [additions, hfilter]
    simp only [List.map_nil, List.nil_append] at h0
    rw [h0]
    have htake : (qs ++ [plast]).take n = qs := by
      rw [← hlen]
      exact List.take_left qs [plast]
    rw [htake]
    have : n - (qs ++ [plast]).length = 0 := by
      simp [hlen]
    rw [this]
    simp
  have hfinal : (updateAddresses (qs ++ [plast]) tx (initState n)).pool =
      qs.map fun d => claimIa d zeroIa := by
    simp only [updateAddresses, hany, if_true, hmap1, start_pool]
    exact hpool2
  refine ⟨hfinal, ?_⟩
  intro ia hia
  rw [hfinal] at hia
  obtain ⟨d, hd, rfl⟩ := List.mem_map.mp hia
  have := List.pairwise_append.mp hdist
  exact this.2.2 d hd plast (by simp)

/-- C9 witness: a one-slot pool offered two distinct eligible /64 prefixes
claims the first and leaves the second unserved. -/
theorem exhaustion_witness :
    (updateAddresses [{ mPfx := exPfx, mLength := 64, mRloc16 := 5, mDhcp := true },
        { mPfx := exPfxB, mLength := 64, mRloc16 := 6, mDhcp := true }] 9 (initState 1)).pool =
      [claimIa { mPfx := exPfx, mLength := 64, mRloc16 := 5, mDhcp := true } zeroIa] := by
  have h := exhaustion 1 9 [{ mPfx := exPfx, mLength := 64, mRloc16 := 5, mDhcp := true }]
    { mPfx := exPfxB, mLength := 64, mRloc16 := 6, mDhcp := true }
    (by decide) (by decide)
    (by
      refine List.Pairwise.cons ?_ (List.Pairwise.cons (by simp) List.Pairwise.nil)
      intro y hy
      have hy2 : y = { mPfx := exPfxB, mLength := 64, mRloc16 := 6, mDhcp := true } := by
        simpa using hy
      subst hy2
      decide)
  simpa using h.1

/-! ### Reconcile idempotence (C5)

`Ip6::Address::PrefixMatch` is an ultrametric-style similarity: the number of
shared leading bits of `a` and `c` is at least the minimum of those of `a,b`
and `b,c`.  This is the key fact behind the stability of the second
`UpdateAddresses` loop: a slot claimed for one prefix is found again by the
scan of any equal-length prefix that also matches it. -/

set_option maxRecDepth 2000

theorem leadBits_char :
    ∀ d, d < 256 → ∀ t, t < 9 → (t ≤ leadBits 8 d ↔ d < 2 ^ (8 - t)) := by decide

theorem leadBits_le8 : ∀ d, d < 256 → leadBits 8 d ≤ 8 := by decide

theorem leadBits_le7 : ∀ d, d < 256 → d ≠ 0 → leadBits 8 d ≤ 7 := by decide

theorem xorB_lt (x y : Nat) : (x % 256) ^^^ (y % 256) < 256 :=
  Nat.xor_lt_two_pow (n := 8) (Nat.mod_lt x (by omega)) (Nat.mod_lt y (by omega))

theorem pm_self (a : List Nat) : prefixMatch a a = 8 * a.length := by
  induction a with
  | nil => rfl
  | cons x xs ih =>
      simp [prefixMatch, Nat.xor_self, ih]
      ring

theorem pm_comm (a : List Nat) : ∀ b, prefixMatch a b = prefixMatch b a := by
  induction a with
  | nil => intro b; cases b <;> rfl
  | cons x xs ih =>
      intro b
      cases b with
      | nil => rfl
      | cons y ys =>
          simp only [prefixMatch]
          rw [Nat.xor_comm (x % 256) (y % 256), ih]

theorem pm_min (a : List Nat) :
    ∀ b c, min (prefixMatch a b) (prefixMatch b c) ≤ prefixMatch a c := by
  induction a with
  | nil =>
      intro b c
      have h : prefixMatch ([] : List Nat) b = 0 := by cases b <;> rfl
      have h2 : prefixMatch ([] : List Nat) c = 0 := by cases c <;> rfl
      omega
  | cons x xs ih =>
      intro b c
      cases b with
      | nil =>
          have h : prefixMatch (x :: xs) ([] : List Nat) = 0 := rfl
          omega
      | cons y ys =>
          cases c with
          | nil =>
              have h : prefixMatch (y :: ys) ([] : List Nat) = 0 := rfl
              have h2 : prefixMatch (x :: xs) ([] : List Nat) = 0 := rfl
              omega
          | cons z zs =>
              simp only [prefixMatch]
              by_cases hxy : (x % 256) ^^^ (y % 256) = 0 <;>
                by_cases hyz : (y % 256) ^^^ (z % 256) = 0
              · have hx : x % 256 = y % 256 := Nat.xor_eq_zero.mp hxy
                have hy : y % 256 = z % 256 := Nat.xor_eq_zero.mp hyz
                have hxz : (x % 256) ^^^ (z % 256) = 0 := by
                  rw [hx, hy, Nat.xor_self]
                rw [if_pos hxy, if_pos hyz, if_pos hxz]
                have := ih ys zs
                omega
              · have hx : x % 256 = y % 256 := Nat.xor_eq_zero.mp hxy
                have hxz : (x % 256) ^^^ (z % 256) = (y % 256) ^^^ (z % 256) := by
                  rw [hx]
                rw [if_pos hxy, if_neg hyz, hxz, if_neg hyz]
                omega
              · have hy : y % 256 = z % 256 := Nat.xor_eq_zero.mp hyz
                have hxz : (x % 256) ^^^ (z % 256) = (x % 256) ^^^ (y % 256) := by
                  rw [hy]
                rw [if_neg hxy, if_pos hyz, hxz, if_neg hxy]
                omega
              · have h1 : (x % 256) ^^^ (y % 256) < 256 := xorB_lt x y
                have h2 : (y % 256) ^^^ (z % 256) < 256 := xorB_lt y z
                have h3 : (x % 256) ^^^ (z % 256) < 256 := xorB_lt x z
                rw [if_neg hxy, if_neg hyz]
                by_cases hxz : (x % 256) ^^^ (z % 256) = 0
                · rw [if_pos hxz]
                  have := leadBits_le7 _ h1 hxy
                  omega
                · rw [if_neg hxz]
                  have hxor : ((x % 256) ^^^ (y % 256)) ^^^ ((y % 256) ^^^ (z % 256)) =
                      (x % 256) ^^^ (z % 256) := by
                    rw [Nat.xor_assoc, ← Nat.xor_assoc (y % 256) (y % 256) (z % 256),
                      Nat.xor_self, Nat.zero_xor]
                  have hle1 := leadBits_le8 _ h1
                  have hle2 := leadBits_le8 _ h2
                  have ht1 : min (leadBits 8 ((x % 256) ^^^ (y % 256)))
                      (leadBits 8 ((y % 256) ^^^ (z % 256))) ≤
                      leadBits 8 ((x % 256) ^^^ (y % 256)) := Nat.min_le_left _ _
                  have ht2 : min (leadBits 8 ((x % 256) ^^^ (y % 256)))
                      (leadBits 8 ((y % 256) ^^^ (z % 256))) ≤
                      leadBits 8 ((y % 256) ^^^ (z % 256)) := Nat.min_le_right _ _
                  have hd1 := (leadBits_char _ h1 _ (by omega)).mp ht1
                  have hd2 := (leadBits_char _ h2 _ (by omega)).mp ht2
                  have hlt : (x % 256) ^^^ (z % 256) <
                      2 ^ (8 - min (leadBits 8 ((x % 256) ^^^ (y % 256)))
                        (leadBits 8 ((y % 256) ^^^ (z % 256)))) := by
                    rw [← hxor]
                    exact Nat.xor_lt_two_pow hd1 hd2
                  exact (leadBits_char _ h3 _ (by omega)).mpr hlt

theorem keyedB_setRloc (c : PfxCfg) (r : Nat) (x : IdentityAssociation) :
    keyedB c (setRloc r x) = keyedB c x := rfl

theorem status_setRloc (r : Nat) (x : IdentityAssociation) :
    (setRloc r x).mStatus = x.mStatus := rfl

theorem ia_eq_of {a b : IdentityAssociation} (h0 : setRloc 0 a = setRloc 0 b)
    (hr : a.mPrefixAgentRloc = b.mPrefixAgentRloc) : a = b := by
  cases a; cases b
  simp_all [setRloc]

theorem keyedB_eq_of_setRloc0 {a b : IdentityAssociation}
    (h : setRloc 0 a = setRloc 0 b) (c : PfxCfg) : keyedB c a = keyedB c b := by
  rw [← keyedB_setRloc c 0 a, h, keyedB_setRloc]

theorem status_eq_of_setRloc0 {a b : IdentityAssociation}
    (h : setRloc 0 a = setRloc 0 b) : a.mStatus = b.mStatus := by
  have := congrArg IdentityAssociation.mStatus h
  simpa [setRloc] using this

theorem keyedB_of_invalid {ia : IdentityAssociation} (c : PfxCfg)
    (h : ia.mStatus = IaStatus.invalid) : keyedB c ia = false := by
  simp [keyedB, h]

theorem status_ne_of_keyedB {c : PfxCfg} {ia : IdentityAssociation}
    (h : keyedB c ia = true) : ia.mStatus ≠ IaStatus.invalid := by
  intro hst
  rw [keyedB_of_invalid c hst] at h
  cases h

/-- a freshly claimed slot is found again by the scan for its own prefix,
provided the prefix length fits inside the prefix bytes (always true of the
16-byte addresses and length ≤ 128 of the source types) -/
theorem keyedB_claim_self {c : PfxCfg} (h : c.mLength ≤ 8 * c.mPfx.length)
    (x : IdentityAssociation) : keyedB c (claimIa c x) = true := by
  simp [keyedB, claimIa, matchNetifAddressWithPfx, pm_self]
  exact h

/-- cross-match: if a slot claimed for `c'` matches the scan of `c`, then any
slot matching `c` also matches `c'` (by prefix-match min-transitivity) -/
theorem keyedB_cross {c c' : PfxCfg} {x sl : IdentityAssociation}
    (h1 : keyedB c (claimIa c' x) = true) (h2 : keyedB c sl = true) :
    keyedB c' sl = true := by
  simp only [keyedB, claimIa, matchNetifAddressWithPfx, Bool.and_eq_true,
    beq_iff_eq, decide_eq_true_eq] at h1 h2 ⊢
  refine ⟨h2.1, h1.2.1.symm.trans h2.2.1, ?_⟩
  have hmin := pm_min sl.mNetifAddress.mAddress c.mPfx c'.mPfx
  have hcomm := pm_comm c'.mPfx c.mPfx
  have ha := h2.2.2
  have hb := h1.2.2
  have hc := h1.2.1
  have hd := h2.2.1
  omega

/-! ### List and `firstIdx` congruence helpers -/

theorem getD_of_le {l : List α} : ∀ {i : Nat}, l.length ≤ i → ∀ (d : α), l.getD i d = d := by
  induction l with
  | nil => intro i h d; cases i <;> rfl
  | cons x xs ih =>
      intro i h d
      cases i with
      | zero => simp at h
      | succ n => exact ih (by simpa using h) d

theorem exists_getD_of_mem {l : List α} {a : α} (h : a ∈ l) (d : α) :
    ∃ i, i < l.length ∧ l.getD i d = a := by
  induction l with
  | nil => simp at h
  | cons x xs ih =>
      rcases List.mem_cons.mp h with rfl | hmem
      · exact ⟨0, by simp, rfl⟩
      · obtain ⟨i, hi, he⟩ := ih hmem
        exact ⟨i + 1, by simpa using hi, he⟩

theorem ext_getD (d : α) : ∀ {l l' : List α}, l.length = l'.length →
    (∀ i, i < l.length → l.getD i d = l'.getD i d) → l = l' := by
  intro l
  induction l with
  | nil =>
      intro l' hlen _
      cases l' with
      | nil => rfl
      | cons y ys => simp at hlen
  | cons x xs ih =>
      intro l' hlen h
      cases l' with
      | nil => simp at hlen
      | cons y ys =>
          have h0 : x = y := by simpa using h 0 (by simp)
          have ht : xs = ys :=
            ih (by simpa using hlen) fun i hi => by simpa using h (i + 1) (by simpa using hi)
          rw [h0, ht]

theorem firstIdx_congr {p q : α → Bool} (d : α) : ∀ {l l' : List α}, l.length = l'.length →
    (∀ i, i < l.length → p (l.getD i d) = q (l'.getD i d)) →
    firstIdx p l = firstIdx q l' := by
  intro l
  induction l with
  | nil =>
      intro l' hlen _
      cases l' with
      | nil => rfl
      | cons y ys => simp at hlen
  | cons x xs ih =>
      intro l' hlen h
      cases l' with
      | nil => simp at hlen
      | cons y ys =>
          have h0 : p x = q y := by simpa using h 0 (by simp)
          simp only [firstIdx]
          rw [h0, ih (by simpa using hlen)
            fun i hi => by simpa using h (i + 1) (by simpa using hi)]

/-! ### Pointwise behaviour of the prefix-addition loop -/

theorem processPfxCfg_length (R : List IdentityAssociation) (c : PfxCfg) :
    (processPfxCfg R c).length = R.length := by
  rcases hf : firstIdx (keyedB c) R with _ | j
  · rcases hg : firstIdx (fun ia => ia.mStatus == IaStatus.invalid) R with _ | p
    · rw [processPfxCfg_skip hf hg]
    · rw [processPfxCfg_claim hf hg]; simp
  · rw [processPfxCfg_found hf]; simp

theorem foldl_processPfxCfg_length :
    ∀ (E : List PfxCfg) (R : List IdentityAssociation),
      (E.foldl processPfxCfg R).length = R.length := by
  intro E
  induction E with
  | nil => intro R; rfl
  | cons c E ih =>
      intro R
      simp only [List.foldl_cons]
      rw [ih, processPfxCfg_length]

/-- one step of the addition loop leaves a slot unchanged, refreshes its
agent locator (first keyed match), or claims it (first free slot) -/
theorem processPfxCfg_getD_cases (R : List IdentityAssociation) (c : PfxCfg) (i : Nat) :
    (processPfxCfg R c).getD i zeroIa = R.getD i zeroIa
    ∨ ((processPfxCfg R c).getD i zeroIa = setRloc c.mRloc16 (R.getD i zeroIa)
        ∧ firstIdx (keyedB c) R = some i)
    ∨ ((processPfxCfg R c).getD i zeroIa = claimIa c (R.getD i zeroIa)
        ∧ firstIdx (fun ia => ia.mStatus == IaStatus.invalid) R = some i
        ∧ firstIdx (keyedB c) R = none) := by
  rcases hf : firstIdx (keyedB c) R with _ | j
  · rcases hg : firstIdx (fun ia => ia.mStatus == IaStatus.invalid) R with _ | p
    · rw [processPfxCfg_skip hf hg]
      exact Or.inl rfl
    · rw [processPfxCfg_claim hf hg]
      by_cases hip : p = i
      · subst hip
        exact Or.inr (Or.inr ⟨getD_set_self (firstIdx_some hg zeroIa).1 _ _, hg, rfl⟩)
      · exact Or.inl (getD_set_ne hip _ _)
  · rw [processPfxCfg_found hf]
    by_cases hij : j = i
    · subst hij
      exact Or.inr (Or.inl ⟨getD_set_self (firstIdx_some hf zeroIa).1 _ _, rfl⟩)
    · exact Or.inl (getD_set_ne hij _ _)

theorem firstIdx_set_setRloc (c : PfxCfg) (R : List IdentityAssociation) (j r : Nat)
    (hj : j < R.length) :
    firstIdx (keyedB c) (R.set j (setRloc r (R.getD j zeroIa))) = firstIdx (keyedB c) R := by
  refine firstIdx_congr zeroIa (by simp) ?_
  intro i hi
  by_cases hij : j = i
  · subst hij
    rw [getD_set_self hj, keyedB_setRloc]
  · rw [getD_set_ne hij]

theorem firstIdx_inv_set_setRloc (R : List IdentityAssociation) (j r : Nat)
    (hj : j < R.length) :
    firstIdx (fun ia => ia.mStatus == IaStatus.invalid)
        (R.set j (setRloc r (R.getD j zeroIa))) =
      firstIdx (fun ia => ia.mStatus == IaStatus.invalid) R := by
  refine firstIdx_congr zeroIa (by simp) ?_
  intro i hi
  by_cases hij : j = i
  · subst hij
    rw [getD_set_self hj]
    rfl
  · rw [getD_set_ne hij]

/-- the first keyed match of a prefix is stable under one step of the addition
loop for any other prefix: a locator refresh does not move it, and a claim
that would create an earlier match for it is impossible (the claiming prefix
would itself have matched the existing match, by cross-matching) -/
theorem firstIdx_keyedB_processPfxCfg {R : List IdentityAssociation} {c : PfxCfg} {m : Nat}
    (c' : PfxCfg) (h : firstIdx (keyedB c) R = some m) :
    firstIdx (keyedB c) (processPfxCfg R c') = some m := by
  rcases hf : firstIdx (keyedB c') R with _ | j
  · rcases hg : firstIdx (fun ia => ia.mStatus == IaStatus.invalid) R with _ | p
    · rw [processPfxCfg_skip hf hg]
      exact h
    · rw [processPfxCfg_claim hf hg]
      have hp := firstIdx_some hg zeroIa
      have hpinv : (R.getD p zeroIa).mStatus = IaStatus.invalid := by simpa using hp.2.1
      by_cases hcm : keyedB c (claimIa c' (R.getD p zeroIa)) = true
      · exfalso
        have hm := firstIdx_some h zeroIa
        have hks := keyedB_cross hcm hm.2.1
        have hnone := firstIdx_none hf zeroIa m hm.1
        rw [hks] at hnone
        cases hnone
      · have hcm' : keyedB c (claimIa c' (R.getD p zeroIa)) = false := by
          simpa using hcm
        have heq : firstIdx (keyedB c) (R.set p (claimIa c' (R.getD p zeroIa))) =
            firstIdx (keyedB c) R := by
          refine firstIdx_congr zeroIa (by simp) ?_
          intro i hi
          by_cases hpi : p = i
          · subst hpi
            rw [getD_set_self hp.1, hcm', keyedB_of_invalid c hpinv]
          · rw [getD_set_ne hpi]
        rw [heq]
        exact h
  · rw [processPfxCfg_found hf,
      firstIdx_set_setRloc c R j c'.mRloc16 (firstIdx_some hf zeroIa).1]
    exact h

theorem firstIdx_keyedB_foldl :
    ∀ (E : List PfxCfg) {R : List IdentityAssociation} {c : PfxCfg} {m : Nat},
      firstIdx (keyedB c) R = some m →
      firstIdx (keyedB c) (E.foldl processPfxCfg R) = some m := by
  intro E
  induction E with
  | nil => intro R c m h; exact h
  | cons c' E ih =>
      intro R c m h
      exact ih (firstIdx_keyedB_processPfxCfg c' h)

/-- when a prefix claims a free slot, that slot is the first keyed match of the
prefix in the resulting pool -/
theorem firstIdx_keyedB_claim {R : List IdentityAssociation} {c : PfxCfg} {p : Nat}
    (hwfc : c.mLength ≤ 8 * c.mPfx.length)
    (hf : firstIdx (keyedB c) R = none)
    (hg : firstIdx (fun ia => ia.mStatus == IaStatus.invalid) R = some p) :
    firstIdx (keyedB c) (processPfxCfg R c) = some p := by
  have hp := firstIdx_some hg zeroIa
  rw [processPfxCfg_claim hf hg]
  refine firstIdx_eq_some zeroIa (by simpa using hp.1) ?_ ?_
  · rw [getD_set_self hp.1]
    exact keyedB_claim_self hwfc _
  · intro k hk
    rw [getD_set_ne (show p ≠ k by omega)]
    exact firstIdx_none hf zeroIa k (by omega)

/-- with no free slot in the pool, the addition loop performs locator
refreshes only, so every slot keeps its non-locator fields -/
theorem foldl_noInvalid :
    ∀ (E : List PfxCfg) (R : List IdentityAssociation),
      firstIdx (fun ia => ia.mStatus == IaStatus.invalid) R = none →
      ∀ i, setRloc 0 ((E.foldl processPfxCfg R).getD i zeroIa) =
        setRloc 0 (R.getD i zeroIa) := by
  intro E
  induction E with
  | nil => intro R _ i; rfl
  | cons c E ih =>
      intro R h i
      simp only [List.foldl_cons]
      rcases hf : firstIdx (keyedB c) R with _ | j
      · rw [processPfxCfg_skip hf h]
        exact ih R h i
      · have hj := (firstIdx_some hf zeroIa).1
        rw [processPfxCfg_found hf]
        have hinv' : firstIdx (fun ia => ia.mStatus == IaStatus.invalid)
            (R.set j (setRloc c.mRloc16 (R.getD j zeroIa))) = none := by
          rw [firstIdx_inv_set_setRloc R j _ hj]
          exact h
        rw [ih _ hinv' i]
        by_cases hij : j = i
        · subst hij
          rw [getD_set_self hj]
          rfl
        · rw [getD_set_ne hij]

/-- the addition loop never invalidates a slot -/
theorem invalid_foldl_mono :
    ∀ (E : List PfxCfg) (R : List IdentityAssociation) (i : Nat),
      ((E.foldl processPfxCfg R).getD i zeroIa).mStatus = IaStatus.invalid →
      (R.getD i zeroIa).mStatus = IaStatus.invalid := by
  intro E
  induction E with
  | nil => intro R i h; exact h
  | cons c E ih =>
      intro R i h
      simp only [List.foldl_cons] at h
      have hpp := ih _ i h
      rcases processPfxCfg_getD_cases R c i with hc | ⟨hc, _⟩ | ⟨hc, _, _⟩
      · rwa [hc] at hpp
      · rw [hc, status_setRloc] at hpp
        exact hpp
      · rw [hc] at hpp
        simp [claimIa] at hpp

/-- a live slot's agent locator either survives the addition loop, or the
final pool has some listed prefix whose first keyed match is that slot -/
theorem rloc_foldl_survives :
    ∀ (E : List PfxCfg) (R : List IdentityAssociation) (i : Nat),
      (R.getD i zeroIa).mStatus ≠ IaStatus.invalid →
      ((E.foldl processPfxCfg R).getD i zeroIa).mPrefixAgentRloc =
          (R.getD i zeroIa).mPrefixAgentRloc
        ∨ ∃ c' ∈ E, firstIdx (keyedB c') (E.foldl processPfxCfg R) = some i := by
  intro E
  induction E with
  | nil => intro R i _; exact Or.inl rfl
  | cons c E ih =>
      intro R i hlive
      simp only [List.foldl_cons]
      rcases processPfxCfg_getD_cases R c i with hc | ⟨hc, hf⟩ | ⟨hc, hg, hf⟩
      · have hlive' : ((processPfxCfg R c).getD i zeroIa).mStatus ≠ IaStatus.invalid := by
          rw [hc]; exact hlive
        rcases ih (processPfxCfg R c) i hlive' with h1 | ⟨c'', hm, h2⟩
        · left
          rw [h1, hc]
        · right
          exact ⟨c'', List.mem_cons_of_mem _ hm, h2⟩
      · right
        refine ⟨c, List.mem_cons_self c E, ?_⟩
        have hstep : firstIdx (keyedB c) (processPfxCfg R c) = some i := by
          rw [processPfxCfg_found hf,
            firstIdx_set_setRloc c R i c.mRloc16 (firstIdx_some hf zeroIa).1]
          exact hf
        exact firstIdx_keyedB_foldl E hstep
      · exfalso
        apply hlive
        simpa using (firstIdx_some hg zeroIa).2.1

/-- if a prefix finds neither a keyed match nor a free slot at its turn, the
final pool has no free slot either (and the prefix stays unmatched) -/
theorem skip_foldl_noInvalid (c : PfxCfg) (E₂ : List PfxCfg)
    (R : List IdentityAssociation)
    (hwfc : c.mLength ≤ 8 * c.mPfx.length)
    (hq : firstIdx (keyedB c) (E₂.foldl processPfxCfg (processPfxCfg R c)) = none) :
    firstIdx (fun ia => ia.mStatus == IaStatus.invalid)
      (E₂.foldl processPfxCfg (processPfxCfg R c)) = none := by
  rcases hf : firstIdx (keyedB c) R with _ | j
  · rcases hg : firstIdx (fun ia => ia.mStatus == IaStatus.invalid) R with _ | p
    · rw [processPfxCfg_skip hf hg] at hq ⊢
      refine firstIdx_eq_none zeroIa ?_
      intro k hk
      have h0 := foldl_noInvalid E₂ R hg k
      have hst := status_eq_of_setRloc0 h0
      have hkR : k < R.length := by
        rw [foldl_processPfxCfg_length] at hk
        exact hk
      have := firstIdx_none hg zeroIa k hkR
      simp only at this ⊢
      rw [hst]
      exact this
    · exfalso
      have hstep := firstIdx_keyedB_claim hwfc hf hg
      have := firstIdx_keyedB_foldl E₂ hstep
      rw [this] at hq
      cases hq
  · exfalso
    have hstep : firstIdx (keyedB c) (processPfxCfg R c) = some j := by
      rw [processPfxCfg_found hf,
        firstIdx_set_setRloc c R j c.mRloc16 (firstIdx_some hf zeroIa).1]
      exact hf
    have := firstIdx_keyedB_foldl E₂ hstep
    rw [this] at hq
    cases hq

/-- if after its own step and the remaining loop a prefix's first keyed match
is slot `i`, then either slot `i` holds that prefix's agent locator in the
final pool, or some later prefix's first keyed match is also slot `i` -/
theorem foldl_last_writer (c : PfxCfg) (E₂ : List PfxCfg)
    (R : List IdentityAssociation) (i : Nat)
    (hwfc : c.mLength ≤ 8 * c.mPfx.length)
    (hq : firstIdx (keyedB c) (E₂.foldl processPfxCfg (processPfxCfg R c)) = some i) :
    ((E₂.foldl processPfxCfg (processPfxCfg R c)).getD i zeroIa).mPrefixAgentRloc =
        c.mRloc16
      ∨ ∃ c' ∈ E₂,
          firstIdx (keyedB c') (E₂.foldl processPfxCfg (processPfxCfg R c)) = some i := by
  rcases hf : firstIdx (keyedB c) R with _ | j
  · rcases hg : firstIdx (fun ia => ia.mStatus == IaStatus.invalid) R with _ | p
    · exfalso
      rw [processPfxCfg_skip hf hg] at hq
      have heq : firstIdx (keyedB c) (E₂.foldl processPfxCfg R) =
          firstIdx (keyedB c) R := by
        refine firstIdx_congr zeroIa (foldl_processPfxCfg_length E₂ R) ?_
        intro k _
        exact keyedB_eq_of_setRloc0 (foldl_noInvalid E₂ R hg k) c
      rw [heq, hf] at hq
      cases hq
    · have hp := firstIdx_some hg zeroIa
      have hstep := firstIdx_keyedB_claim hwfc hf hg
      have hQ := firstIdx_keyedB_foldl E₂ hstep
      rw [hQ] at hq
      injection hq with hip
      subst hip
      have hcl : (processPfxCfg R c).getD p zeroIa = claimIa c (R.getD p zeroIa) := by
        rw [processPfxCfg_claim hf hg]
        exact getD_set_self hp.1 _ _
      have hlive : ((processPfxCfg R c).getD p zeroIa).mStatus ≠ IaStatus.invalid := by
        rw [hcl]
        simp [claimIa]
      rcases rloc_foldl_survives E₂ (processPfxCfg R c) p hlive with h1 | h2
      · left
        rw [h1, hcl]
        rfl
      · right
        exact h2
  · have hstep : firstIdx (keyedB c) (processPfxCfg R c) = some j := by
      rw [processPfxCfg_found hf,
        firstIdx_set_setRloc c R j c.mRloc16 (firstIdx_some hf zeroIa).1]
      exact hf
    have hQ := firstIdx_keyedB_foldl E₂ hstep
    rw [hQ] at hq
    injection hq with hij
    subst hij
    have hsl : (processPfxCfg R c).getD j zeroIa =
        setRloc c.mRloc16 (R.getD j zeroIa) := by
      rw [processPfxCfg_found hf]
      exact getD_set_self (firstIdx_some hf zeroIa).1 _ _
    have hlive : ((processPfxCfg R c).getD j zeroIa).mStatus ≠ IaStatus.invalid := by
      rw [hsl, status_setRloc]
      exact status_ne_of_keyedB (firstIdx_some hf zeroIa).2.1
    rcases rloc_foldl_survives E₂ (processPfxCfg R c) j hlive with h1 | h2
    · left
      rw [h1, hsl]
      rfl
    · right
      exact h2

/-- forward simulation of the second run of the addition loop over the first
run's result `Q`: a pool that agrees with `Q` outside agent locators, and whose
locator deviations all have a pending writer among the remaining prefixes,
folds to exactly `Q` -/
theorem foldl_second_run (E : List PfxCfg) (P Q : List IdentityAssociation)
    (hQdef : Q = E.foldl processPfxCfg P)
    (hwf : ∀ c ∈ E, c.mLength ≤ 8 * c.mPfx.length) :
    ∀ (E₂ E₁ : List PfxCfg) (T : List IdentityAssociation),
      E = E₁ ++ E₂ →
      T.length = Q.length →
      (∀ i, setRloc 0 (T.getD i zeroIa) = setRloc 0 (Q.getD i zeroIa)) →
      (∀ i, T.getD i zeroIa ≠ Q.getD i zeroIa →
        ∃ c' ∈ E₂, firstIdx (keyedB c') Q = some i) →
      E₂.foldl processPfxCfg T = Q := by
  intro E₂
  induction E₂ with
  | nil =>
      intro E₁ T _ hlen hii hiii
      refine ext_getD zeroIa hlen ?_
      intro i _
      by_cases heq : T.getD i zeroIa = Q.getD i zeroIa
      · exact heq
      · rcases hiii i heq with ⟨c', hc', _⟩
        exact absurd hc' (List.not_mem_nil c')
  | cons c E₂' ih =>
      intro E₁ T hsplit hlen hii hiii
      have hcE : c ∈ E := by
        rw [hsplit]
        exact List.mem_append_right _ (List.mem_cons_self c E₂')
      have hQsplit : Q = E₂'.foldl processPfxCfg
          (processPfxCfg (E₁.foldl processPfxCfg P) c) := by
        rw [hQdef, hsplit, List.foldl_append, List.foldl_cons]
      have hkey : ∀ c'' : PfxCfg,
          firstIdx (keyedB c'') T = firstIdx (keyedB c'') Q := by
        intro c''
        refine firstIdx_congr zeroIa hlen ?_
        intro k _
        exact keyedB_eq_of_setRloc0 (hii k) c''
      have hinv : firstIdx (fun ia => ia.mStatus == IaStatus.invalid) T =
          firstIdx (fun ia => ia.mStatus == IaStatus.invalid) Q := by
        refine firstIdx_congr zeroIa hlen ?_
        intro k _
        show ((T.getD k zeroIa).mStatus == IaStatus.invalid) =
          ((Q.getD k zeroIa).mStatus == IaStatus.invalid)
        rw [status_eq_of_setRloc0 (hii k)]
      have hsplit' : E = (E₁ ++ [c]) ++ E₂' := by
        rw [hsplit, List.append_assoc]
        rfl
      rcases hq : firstIdx (keyedB c) Q with _ | i
      · have hnoinv : firstIdx (fun ia => ia.mStatus == IaStatus.invalid) Q = none := by
          rw [hQsplit]
          refine skip_foldl_noInvalid c E₂' _ (hwf c hcE) ?_
          rw [← hQsplit]
          exact hq
        have hTskip : processPfxCfg T c = T :=
          processPfxCfg_skip (by rw [hkey c, hq]) (by rw [hinv, hnoinv])
        rw [List.foldl_cons, hTskip]
        refine ih (E₁ ++ [c]) T hsplit' hlen hii ?_
        intro k hkne
        rcases hiii k hkne with ⟨c', hc', hfi⟩
        rcases List.mem_cons.mp hc' with rfl | hmem
        · rw [hq] at hfi
          cases hfi
        · exact ⟨c', hmem, hfi⟩
      · have hiQ := firstIdx_some hq zeroIa
        have hiT : i < T.length := by
          rw [hlen]
          exact hiQ.1
        have hTw : processPfxCfg T c = T.set i (setRloc c.mRloc16 (T.getD i zeroIa)) :=
          processPfxCfg_found (by rw [hkey c, hq])
        rw [List.foldl_cons, hTw]
        refine ih (E₁ ++ [c]) _ hsplit' (by simpa using hlen) ?_ ?_
        · intro k
          by_cases hik : i = k
          · subst hik
            rw [getD_set_self hiT]
            have hcomp : setRloc 0 (setRloc c.mRloc16 (T.getD i zeroIa)) =
                setRloc 0 (T.getD i zeroIa) := rfl
            rw [hcomp]
            exact hii i
          · rw [getD_set_ne hik]
            exact hii k
        · intro k hkne
          by_cases hik : i = k
          · subst hik
            have hR4 := foldl_last_writer c E₂' (E₁.foldl processPfxCfg P) i
              (hwf c hcE) (by rw [← hQsplit]; exact hq)
            rw [← hQsplit] at hR4
            rcases hR4 with h1 | h2
            · exfalso
              apply hkne
              refine ia_eq_of ?_ ?_
              · rw [getD_set_self hiT]
                have hcomp : setRloc 0 (setRloc c.mRloc16 (T.getD i zeroIa)) =
                    setRloc 0 (T.getD i zeroIa) := rfl
                rw [hcomp]
                exact hii i
              · rw [getD_set_self hiT, h1]
                rfl
            · exact h2
          · rw [getD_set_ne hik] at hkne
            rcases hiii k hkne with ⟨c', hc', hfi⟩
            rcases List.mem_cons.mp hc' with rfl | hmem
            · rw [hq] at hfi
              injection hfi with hik'
              exact absurd hik' hik
            · exact ⟨c', hmem, hfi⟩

/-- the prefix-addition phase of `UpdateAddresses` is idempotent (for prefix
lengths that fit inside the prefix bytes) -/
theorem additions_idem (cfg : List PfxCfg) (P : List IdentityAssociation)
    (hwf : ∀ c ∈ cfg, c.mDhcp = true → c.mLength ≤ 8 * c.mPfx.length) :
    additions cfg (additions cfg P) = additions cfg P := by
  have hwfE : ∀ c ∈ cfg.filter (·.mDhcp), c.mLength ≤ 8 * c.mPfx.length := by
    intro c hc
    have hm := List.mem_filter.mp hc
    exact hwf c hm.1 (by simpa using hm.2)
  show (cfg.filter (·.mDhcp)).foldl processPfxCfg
      ((cfg.filter (·.mDhcp)).foldl processPfxCfg P) =
    (cfg.filter (·.mDhcp)).foldl processPfxCfg P
  exact foldl_second_run (cfg.filter (·.mDhcp)) P _ rfl hwfE
    (cfg.filter (·.mDhcp)) [] _ rfl rfl (fun _ => rfl)
    (fun _ h => absurd rfl h)

/-! ### Stability of the withdrawal test after one reconcile -/

theorem shouldInvalidate_eq_false (cfg : List PfxCfg) (ia : IdentityAssociation)
    (h : ia.mStatus = IaStatus.invalid ∨ ia.mValidLifetime = 0 ∨
      (cfg.any fun c => c.mDhcp && matchNetifAddressWithPfx ia.mNetifAddress c) = true) :
    shouldInvalidate cfg ia = false := by
  rcases h with h | h | h <;> simp [shouldInvalidate, h]

theorem post_processPfxCfg (cfg : List PfxCfg) (R : List IdentityAssociation)
    (c : PfxCfg) (i : Nat)
    (h : (R.getD i zeroIa).mStatus = IaStatus.invalid ∨
      (R.getD i zeroIa).mValidLifetime = 0 ∨
      (cfg.any fun c' => c'.mDhcp &&
        matchNetifAddressWithPfx (R.getD i zeroIa).mNetifAddress c') = true) :
    ((processPfxCfg R c).getD i zeroIa).mStatus = IaStatus.invalid ∨
    ((processPfxCfg R c).getD i zeroIa).mValidLifetime = 0 ∨
    (cfg.any fun c' => c'.mDhcp &&
      matchNetifAddressWithPfx ((processPfxCfg R c).getD i zeroIa).mNetifAddress c') =
      true := by
  rcases processPfxCfg_getD_cases R c i with hc | ⟨hc, _⟩ | ⟨hc, _, _⟩
  · rw [hc]
    exact h
  · rw [hc]
    exact h
  · rw [hc]
    right
    left
    rfl

theorem post_foldl (cfg : List PfxCfg) :
    ∀ (E : List PfxCfg) (R : List IdentityAssociation),
      (∀ k, (R.getD k zeroIa).mStatus = IaStatus.invalid ∨
        (R.getD k zeroIa).mValidLifetime = 0 ∨
        (cfg.any fun c' => c'.mDhcp &&
          matchNetifAddressWithPfx (R.getD k zeroIa).mNetifAddress c') = true) →
      ∀ i, ((E.foldl processPfxCfg R).getD i zeroIa).mStatus = IaStatus.invalid ∨
        ((E.foldl processPfxCfg R).getD i zeroIa).mValidLifetime = 0 ∨
        (cfg.any fun c' => c'.mDhcp &&
          matchNetifAddressWithPfx
            ((E.foldl processPfxCfg R).getD i zeroIa).mNetifAddress c') = true := by
  intro E
  induction E with
  | nil => intro R h i; exact h i
  | cons c E ih =>
      intro R h i
      simp only [List.foldl_cons]
      exact ih _ (fun k => post_processPfxCfg cfg R c k (h k)) i

/-- after one reconcile, no slot of the resulting pool passes the withdrawal
test of a second reconcile with the same configuration -/
theorem shouldInvalidate_additions (cfg : List PfxCfg)
    (pl : List IdentityAssociation) (i : Nat) :
    shouldInvalidate cfg
      ((additions cfg (pl.map fun ia =>
        if shouldInvalidate cfg ia then { ia with mStatus := IaStatus.invalid }
        else ia)).getD i zeroIa) = false := by
  apply shouldInvalidate_eq_false
  have hbase : ∀ k, (((pl.map fun ia =>
      if shouldInvalidate cfg ia then { ia with mStatus := IaStatus.invalid }
      else ia)).getD k zeroIa).mStatus = IaStatus.invalid ∨
      (((pl.map fun ia =>
        if shouldInvalidate cfg ia then { ia with mStatus := IaStatus.invalid }
        else ia)).getD k zeroIa).mValidLifetime = 0 ∨
      (cfg.any fun c' => c'.mDhcp &&
        matchNetifAddressWithPfx (((pl.map fun ia =>
          if shouldInvalidate cfg ia then { ia with mStatus := IaStatus.invalid }
          else ia)).getD k zeroIa).mNetifAddress c') = true := by
    intro k
    by_cases hk : k < pl.length
    · rw [getD_map_lt hk]
      by_cases hsi : shouldInvalidate cfg (pl.getD k zeroIa) = true
      · rw [if_pos hsi]
        left
        rfl
      · rw [if_neg hsi]
        by_cases h1 : (pl.getD k zeroIa).mStatus = IaStatus.invalid
        · left
          exact h1
        by_cases h2 : (pl.getD k zeroIa).mValidLifetime = 0
        · right
          left
          exact h2
        right
        right
        by_contra h3
        apply hsi
        have h3' : (cfg.any fun c' => c'.mDhcp &&
            matchNetifAddressWithPfx (pl.getD k zeroIa).mNetifAddress c') = false := by
          simpa using h3
        have hb1 : ((pl.getD k zeroIa).mStatus == IaStatus.invalid) = false :=
          beq_eq_false_iff_ne.mpr h1
        have hb2 : ((pl.getD k zeroIa).mValidLifetime == 0) = false :=
          beq_eq_false_iff_ne.mpr h2
        unfold shouldInvalidate
        rw [hb1, hb2, h3']
        rfl
    · rw [getD_of_le (by simp; omega)]
      left
      rfl
  exact post_foldl cfg (cfg.filter (·.mDhcp)) _ hbase i

theorem shouldInvalidate_additions_mem (cfg : List PfxCfg)
    (pl : List IdentityAssociation) :
    ∀ ia ∈ additions cfg (pl.map fun ia =>
      if shouldInvalidate cfg ia then { ia with mStatus := IaStatus.invalid }
      else ia), shouldInvalidate cfg ia = false := by
  intro ia hia
  obtain ⟨i, _, he⟩ := exists_getD_of_mem hia zeroIa
  rw [← he]
  exact shouldInvalidate_additions cfg pl i

/-! ### Socket and pool bookkeeping of `UpdateAddresses` -/

theorem pnia_socket (tx : Nat) (s : ClientState) :
    ((processNextIdentityAssociation tx s).1).socketOpen = s.socketOpen := by
  simp only [processNextIdentityAssociation]
  repeat (first | rfl | split)

theorem start_socketOpen (tx : Nat) (s : ClientState) :
    (start tx s).socketOpen = true := by
  simp only [start]
  split
  · rename_i h
    exact h
  · rw [pnia_socket]

theorem start_of_open (tx : Nat) {s : ClientState} (h : s.socketOpen = true) :
    start tx s = s := by
  simp [start, h]

theorem stop_of_closed {s : ClientState} (h : s.socketOpen = false) : stop s = s := by
  cases s
  simp_all [stop]

theorem updateAddresses_pool (cfg : List PfxCfg) (tx : Nat) (s : ClientState) :
    (updateAddresses cfg tx s).pool = additions cfg (s.pool.map fun ia =>
      if shouldInvalidate cfg ia then { ia with mStatus := IaStatus.invalid }
      else ia) := by
  simp only [updateAddresses]
  split
  · exact start_pool tx _
  · rfl

theorem updateAddresses_socket (cfg : List PfxCfg) (tx : Nat) (s : ClientState) :
    (updateAddresses cfg tx s).socketOpen = cfg.any (·.mDhcp) := by
  simp only [updateAddresses]
  cases h : cfg.any (·.mDhcp)
  · simp [stop]
  · simp [start_socketOpen]

/-- a state whose pool is a fixed point of the addition loop, contains no
withdrawable slot, and whose socket state agrees with prefix availability, is
a fixed point of `UpdateAddresses` -/
theorem updateAddresses_fixed (cfg : List PfxCfg) (tx' : Nat) (t : ClientState)
    (hsi : ∀ ia ∈ t.pool, shouldInvalidate cfg ia = false)
    (hadd : additions cfg t.pool = t.pool)
    (hso : cfg.any (·.mDhcp) = true → t.socketOpen = true)
    (hsc : cfg.any (·.mDhcp) = false → t.socketOpen = false) :
    updateAddresses cfg tx' t = t := by
  have hev : (t.pool.filterMap fun ia =>
      if shouldInvalidate cfg ia then some (NetifEvent.removeAddr ia.mNetifAddress)
      else none) = [] :=
    List.filterMap_eq_nil.mpr fun ia hia => by simp [hsi ia hia]
  have hmap : (t.pool.map fun ia =>
      if shouldInvalidate cfg ia then { ia with mStatus := IaStatus.invalid }
      else ia) = t.pool :=
    map_self_of_fixed fun ia hia => by simp [hsi ia hia]
  simp only [updateAddresses, hev, hmap, hadd, List.append_nil]
  show (if cfg.any (·.mDhcp) then start tx' t else stop t) = t
  cases h : cfg.any (·.mDhcp)
  · simp only [Bool.false_eq_true, if_false]
    exact stop_of_closed (hsc h)
  · simp only [if_true]
    exact start_of_open tx' (hso h)

/-- C5 counterexample: with a (type-representable but out-of-range) prefix
length larger than the prefix's bit width, a claimed slot never matches its
own prefix again, so the second reconcile claims a further slot and the state
changes. -/
theorem updateAddresses_not_idempotent_cx :
    updateAddresses
        [{ mPfx := List.replicate 16 0, mLength := 200, mRloc16 := 5, mDhcp := true }] 0
        (updateAddresses
          [{ mPfx := List.replicate 16 0, mLength := 200, mRloc16 := 5, mDhcp := true }] 0
          (initState 2)) ≠
      updateAddresses
        [{ mPfx := List.replicate 16 0, mLength := 200, mRloc16 := 5, mDhcp := true }] 0
        (initState 2) := by
  decide

/-- C5 (amended): `UpdateAddresses` is idempotent — for every client state and
every configuration whose DHCP-eligible prefix lengths fit inside their prefix
bytes (always true of the source types: a 16-byte address and a length of at
most 128 bits), running it a second time with the same configuration changes
nothing: no withdrawal fires again, the addition loop only rewrites agent
locators with the values they already have, and the socket/timer path is
taken identically; the transaction id of the second run is irrelevant. -/
theorem updateAddresses_idempotent (cfg : List PfxCfg) (tx tx' : Nat) (s : ClientState)
    (hwf : ∀ c ∈ cfg, c.mDhcp = true → c.mLength ≤ 8 * c.mPfx.length) :
    updateAddresses cfg tx' (updateAddresses cfg tx s) = updateAddresses cfg tx s := by
  have hpool := updateAddresses_pool cfg tx s
  refine updateAddresses_fixed cfg tx' _ ?_ ?_ ?_ ?_
  · rw [hpool]
    exact shouldInvalidate_additions_mem cfg s.pool
  · rw [hpool, additions_idem cfg _ hwf]
  · intro h
    rw [updateAddresses_socket]
    exact h
  · intro h
    rw [updateAddresses_socket]
    exact h

/-- C5 witness: a concrete in-range configuration on a fresh two-slot pool,
with different transaction ids for the two runs -/
theorem updateAddresses_idempotent_witness :
    (∀ c ∈ exCfg, c.mDhcp = true → c.mLength ≤ 8 * c.mPfx.length) ∧
    updateAddresses exCfg 3 (updateAddresses exCfg 2 (initState 2)) =
      updateAddresses exCfg 2 (initState 2) :=
  ⟨by decide, updateAddresses_idempotent exCfg 2 3 (initState 2) (by decide)⟩
